import Mathlib

/-!
# Salary dashboard (`src/App.jsx`): aggregation, sorting and drill-down

A shallow embedding of the three pure computations of the React component
`App`:

* `processSalaryData` (lines 33-57): per-year job count and average salary;
* `sortTable` (lines 59-77): the comparison sort of the yearly table and its
  `{key, direction}` state;
* `handleRowClick` (lines 79-98): the per-job-title count of a selected year.

The JavaScript built-ins the code calls (`parseInt`, `parseFloat`, Number
addition and division, `Number.prototype.toFixed`, ordinary objects used as
maps, `Object.entries`, `Array.prototype.sort`, the `<` operator on strings)
are modelled after ECMA-262.  Numbers are IEEE 754 binary64 values, modelled
exactly with natural-number arithmetic.
-/

namespace SalaryDashboard

/-! ## Characters and digits -/

/-- ECMA-262 `WhiteSpace` and `LineTerminator` code points, the characters that
`TrimString` removes. -/
def isStrWhiteSpaceChar (c : Char) : Bool :=
  let n := c.toNat
  n = 0x09 || n = 0x0A || n = 0x0B || n = 0x0C || n = 0x0D || n = 0x20 || n = 0xA0 ||
  n = 0x1680 || (0x2000 ≤ n && n ≤ 0x200A) || n = 0x2028 || n = 0x2029 || n = 0x202F ||
  n = 0x205F || n = 0x3000 || n = 0xFEFF

/-- The value of `c` as a digit of the given radix (letters count from 10), if
it is one. -/
def digitValue? (radix : Nat) (c : Char) : Option Nat :=
  let n := c.toNat
  let v : Option Nat :=
    if 48 ≤ n ∧ n ≤ 57 then some (n - 48)
    else if 97 ≤ n ∧ n ≤ 122 then some (n - 87)
    else if 65 ≤ n ∧ n ≤ 90 then some (n - 55)
    else none
  v.filter (fun d => d < radix)

/-- Is `c` one of `0`..`9`? -/
def isDecimalDigit (c : Char) : Bool := (digitValue? 10 c).isSome

/-- The number written by a list of digits of the given radix. -/
def digitsValue (radix : Nat) (cs : List Char) : Nat :=
  cs.foldl (fun acc c => acc * radix + (digitValue? radix c).getD 0) 0

/-- Split an optional leading sign off: `(isNegative, rest)`. -/
def splitSign : List Char → Bool × List Char
  | '-' :: t => (true, t)
  | '+' :: t => (false, t)
  | s => (false, s)

/-! ## `parseInt` -/

/-- The global `parseInt(string)` with no radix argument.  `none` is `NaN`.
The result of the source is a Number; here it is the exact integer (`-0` is
`0`).  The caller only tests the result for falsiness and against `2020` and
`2024`, and rounding to binary64 is monotone and fixes every integer below
`2^53`, so these tests see the same outcome. -/
def parseInt (input : String) : Option Int :=
  let s := input.data.dropWhile isStrWhiteSpaceChar
  let (neg, s) := splitSign s
  let (radix, s) : Nat × List Char :=
    match s with
    | '0' :: 'x' :: t => (16, t)
    | '0' :: 'X' :: t => (16, t)
    | _ => (10, s)
  let z := s.takeWhile (fun c => (digitValue? radix c).isSome)
  if z = [] then none
  else if neg then some (-(digitsValue radix z : Int))
  else some (digitsValue radix z : Int)

/-! ## Numbers -/

/-- An IEEE 754 binary64 value.  `fin neg mant exp` is `(-1)^neg * mant * 2^exp`;
the values built below are canonical: `mant < 2^53`, `-1074 ≤ exp ≤ 971` and
`2^52 ≤ mant` unless `exp = -1074`. -/
inductive JSNumber where
  | nan : JSNumber
  | inf (neg : Bool) : JSNumber
  | fin (neg : Bool) (mant : Nat) (exp : Int) : JSNumber
  deriving DecidableEq, Repr

namespace JSNumber

/-- The Number `+0`. -/
def zero : JSNumber := fin false 0 (-1074)

/-- The test `isNaN(x)` on a Number. -/
def isNaN : JSNumber → Bool
  | nan => true
  | _ => false

/-- Number of binary digits of a positive natural number. -/
def bitLength (n : Nat) : Nat := (Nat.toDigits 2 n).length

/-- Is `den * 2^k ≤ num`? -/
def scaledLe (num den : Nat) (k : Int) : Bool :=
  if 0 ≤ k then decide (den * 2 ^ k.toNat ≤ num) else decide (den ≤ num * 2 ^ (-k).toNat)

/-- The integer nearest to `num / den`, the even one of two. -/
def roundHalfEven (num den : Nat) : Nat :=
  let q := num / den
  let r := num % den
  if den < 2 * r ∨ (2 * r = den ∧ q % 2 = 1) then q + 1 else q

/-- The binary64 value nearest to `num / den` (ties to even, overflow to
infinity), with the given sign: IEEE 754 roundTiesToEven. -/
def roundQuot (neg : Bool) (num den : Nat) : JSNumber :=
  if num = 0 then fin neg 0 (-1074)
  else
    let e0 : Int := (bitLength num : Int) - (bitLength den : Int)
    -- `e` is the exponent of the leading bit: `2^e ≤ num / den < 2^(e+1)`
    let e : Int := if scaledLe num den e0 then e0 else e0 - 1
    let p : Int := max (e - 52) (-1074)
    let m : Nat :=
      if 0 ≤ p then roundHalfEven num (den * 2 ^ p.toNat)
      else roundHalfEven (num * 2 ^ (-p).toNat) den
    let (m, p) : Nat × Int := if m = 2 ^ 53 then (2 ^ 52, p + 1) else (m, p)
    if 971 < p then inf neg else fin neg m p

/-- The binary64 value nearest to `n * 2^e`. -/
def ofScaled (neg : Bool) (n : Nat) (e : Int) : JSNumber :=
  if 0 ≤ e then roundQuot neg (n * 2 ^ e.toNat) 1 else roundQuot neg n (2 ^ (-e).toNat)

/-- The binary64 value nearest to `n * 10^e`. -/
def ofDecimal (neg : Bool) (n : Nat) (e : Int) : JSNumber :=
  if 0 ≤ e then roundQuot neg (n * 10 ^ e.toNat) 1 else roundQuot neg n (10 ^ (-e).toNat)

/-- The integer `(-1)^neg * n`. -/
def signed (neg : Bool) (n : Nat) : Int := if neg then -(n : Int) else (n : Int)

/-- Number addition, `x + y` (ECMA-262 `Number::add`). -/
def add : JSNumber → JSNumber → JSNumber
  | nan, _ => nan
  | _, nan => nan
  | inf a, inf b => if a = b then inf a else nan
  | inf a, fin _ _ _ => inf a
  | fin _ _ _, inf b => inf b
  | fin n1 m1 e1, fin n2 m2 e2 =>
    let e := min e1 e2
    let s : Int := signed n1 (m1 * 2 ^ (e1 - e).toNat) + signed n2 (m2 * 2 ^ (e2 - e).toNat)
    if s = 0 then
      -- an exact zero sum is `+0`, except `(-0) + (-0) = -0`
      fin (m1 = 0 && m2 = 0 && n1 && n2) 0 (-1074)
    else ofScaled (decide (s < 0)) s.natAbs e

/-- Number division `x / n` by a count `n` (a non-negative integer below
`2^53`, which is exactly a Number). -/
def divNat : JSNumber → Nat → JSNumber
  | nan, _ => nan
  | inf neg, _ => inf neg
  | fin neg m e, n =>
    if n = 0 then (if m = 0 then nan else inf neg)
    else if 0 ≤ e then roundQuot neg (m * 2 ^ e.toNat) n
    else roundQuot neg m (n * 2 ^ (-e).toNat)

/-- Decimal digits of a natural number (`"0"` for zero). -/
def decimalDigits (n : Nat) : List Char := Nat.toDigits 10 n

/-- The digits of the positive integer `x` that `Number::toString` prints for
a finite Number `v` of value `x ≥ 10^21`: the pair `(s, n)` with `s` of `k`
digits, `k` as small as possible, such that `s * 10^(n-k)` rounds to `v`;
among several, the one nearest to `x`, the even one of two.  At most 17
digits are ever needed. -/
def shortestDigits (v : JSNumber) (x : Nat) : Nat × Nat :=
  let nd := (decimalDigits x).length
  let candidates (k : Nat) : List (Nat × Nat) :=
    ([nd, nd + 1].flatMap fun n =>
      [x / 10 ^ (n - k), x / 10 ^ (n - k) + 1].map fun s => (s, n)).filter fun c =>
        decide (10 ^ (k - 1) ≤ c.1) && decide (c.1 < 10 ^ k) &&
          decide (roundQuot false (c.1 * 10 ^ (c.2 - k)) 1 = v)
  let dist (k : Nat) (c : Nat × Nat) : Nat :=
    let y := c.1 * 10 ^ (c.2 - k)
    if x ≤ y then y - x else x - y
  let better (k : Nat) (c d : Nat × Nat) : Bool :=
    decide (dist k c < dist k d) || (decide (dist k c = dist k d) && decide (c.1 % 2 = 0))
  let pick (k : Nat) : Option (Nat × Nat) :=
    (candidates k).foldl (fun best c =>
      match best with
      | none => some c
      | some b => if better k c b then some c else some b) none
  ((List.range 17).findSome? fun i => pick (i + 1)).getD (x, nd)

/-- The string `Number::toString(v)` for a positive finite `v` of integer value
`x ≥ 10^21`: exponential form `d.ddde+N`. -/
def toStringLarge (v : JSNumber) (x : Nat) : String :=
  let (s, n) := shortestDigits v x
  match decimalDigits s with
  | [] => ""
  | [d] => String.mk ([d] ++ "e+".data ++ decimalDigits (n - 1))
  | d :: ds => String.mk ([d, '.'] ++ ds ++ "e+".data ++ decimalDigits (n - 1))

/-- The method `Number.prototype.toFixed(f)` for `0 ≤ f ≤ 100`. -/
def toFixed (v : JSNumber) (f : Nat) : String :=
  match v with
  | nan => "NaN"
  | inf neg => if neg then "-Infinity" else "Infinity"
  | fin neg mant exp =>
    -- `x < 0` is false for `-0`
    let sign : List Char := if neg ∧ mant ≠ 0 then ['-'] else []
    if scaledLe mant (10 ^ 21) (-exp) then
      -- here `exp > 0`, the value is the integer `mant * 2^exp ≥ 10^21`
      String.mk (sign ++ (toStringLarge (fin false mant exp) (mant * 2 ^ exp.toNat)).data)
    else
      -- `n` is the integer nearest to `x * 10^f`, the larger of two
      let num := mant * 10 ^ f * 2 ^ exp.toNat
      let den := 2 ^ (-exp).toNat
      let n := if den ≤ 2 * (num % den) then num / den + 1 else num / den
      let m := decimalDigits n
      if f = 0 then String.mk (sign ++ m)
      else
        let m := List.replicate (f + 1 - m.length) '0' ++ m
        String.mk (sign ++ m.take (m.length - f) ++ ['.'] ++ m.drop (m.length - f))

end JSNumber

/-! ## `parseFloat` -/

/-- The value of an `ExponentPart` at the head of `s`, `0` when there is none. -/
def parseExponent : List Char → Int
  | c :: t =>
    if c = 'e' ∨ c = 'E' then
      let (neg, t) := splitSign t
      let ds := t.takeWhile isDecimalDigit
      if ds = [] then 0
      else if neg then -(digitsValue 10 ds : Int)
      else (digitsValue 10 ds : Int)
    else 0
  | [] => 0

/-- The global `parseFloat(string)`: the Number of the longest leading
`StrDecimalLiteral` of the string without its leading white space, `NaN` when
there is none. -/
def parseFloat (input : String) : JSNumber :=
  let s := input.data.dropWhile isStrWhiteSpaceChar
  let (neg, s) := splitSign s
  if "Infinity".data.isPrefixOf s then JSNumber.inf neg
  else
    let intDigits := s.takeWhile isDecimalDigit
    let s := s.dropWhile isDecimalDigit
    let (fracDigits, s) : List Char × List Char :=
      match s with
      | '.' :: t => (t.takeWhile isDecimalDigit, t.dropWhile isDecimalDigit)
      | _ => ([], s)
    if intDigits = [] ∧ fracDigits = [] then JSNumber.nan
    else
      JSNumber.ofDecimal neg (digitsValue 10 (intDigits ++ fracDigits))
        (parseExponent s - fracDigits.length)

/-! ## Ordinary objects used as maps -/

/-- The own enumerable string-keyed properties of an ordinary object, in the
order in which they were created. -/
structure JSObject (α : Type) where
  props : List (String × α)

namespace JSObject

variable {α : Type}

/-- The object literal `{}`. -/
def empty : JSObject α := ⟨[]⟩

/-- Does the object have an own property `k`? -/
def hasOwn (o : JSObject α) (k : String) : Bool := o.props.any fun p => p.1 = k

/-- The value of the own property `k`, if there is one. -/
def getOwn? (o : JSObject α) (k : String) : Option α :=
  (o.props.find? fun p => p.1 = k).map Prod.snd

/-- The own property keys in order of creation. -/
def keys (o : JSObject α) : List String := o.props.map Prod.fst

/-- Store `v` under the own property `k`: an existing property keeps its
place, a new one is created last. -/
def setOwn (o : JSObject α) (k : String) (v : α) : JSObject α :=
  if o.hasOwn k then ⟨o.props.map fun p => if p.1 = k then (k, v) else p⟩
  else ⟨o.props ++ [(k, v)]⟩

/-- The integer of a property key that is an array index: a canonical numeric
string of an integer from `0` to `2^32 - 2`. -/
def arrayIndex? (k : String) : Option Nat :=
  let n := digitsValue 10 k.data
  if Nat.repr n = k ∧ n < 2 ^ 32 - 1 then some n else none

/-- The numeric value of an array-index key (`0` for other keys). -/
def indexOf (p : String × α) : Nat := (arrayIndex? p.1).getD 0

/-- `Object.entries(o)`: the own properties in the order of
`OrdinaryOwnPropertyKeys`, that is the array-index keys in ascending numeric
order, then the other keys in order of creation. -/
def entries (o : JSObject α) : List (String × α) :=
  (o.props.filter fun p => (arrayIndex? p.1).isSome).insertionSort
      (fun p q => indexOf p ≤ indexOf q) ++
    o.props.filter fun p => (arrayIndex? p.1).isNone

end JSObject

/-! ## Data model -/

/-- A row of the parsed CSV (`Papa.parse` with `header: true`): column name to
string.  A column that a short row leaves unset is `undefined`; `parseFloat`
and property access convert it to the string `"undefined"`, so for
`salary_in_usd` and `job_title` it is represented by that string, while
`work_year`, which is also compared with `===`, keeps the distinction. -/
structure RawRecord where
  work_year : Option String
  salary_in_usd : String
  job_title : String
  deriving DecidableEq, Repr

/-- The running `{ totalJobs, totalSalary }` of a year. -/
structure YearInfo where
  totalJobs : Nat
  totalSalary : JSNumber
  deriving DecidableEq, Repr

/-- A row of the yearly table: `{ year, totalJobs, averageSalary }`.  `year` is
a property key of `grouped` and `averageSalary` the result of `toFixed`, both
strings. -/
structure YearSummary where
  year : String
  totalJobs : Nat
  averageSalary : String
  deriving DecidableEq, Repr

/-! ## `processSalaryData` -/

/-- The argument of `parseInt(row.work_year)` after `ToString`. -/
def workYearString (row : RawRecord) : String := row.work_year.getD "undefined"

/-- The property key `ToString(year)` of an integer Number `year` (used for
`2020 ≤ year ≤ 2024`). -/
def yearKey (year : Int) : String := year.repr

/-- The reducer of `processSalaryData` (lines 34-50).  The keys are numerals,
none of which names a property of `Object.prototype`, so `acc[year]` is an own
property or `undefined`. -/
def processStep (acc : JSObject YearInfo) (row : RawRecord) : JSObject YearInfo :=
  match parseInt (workYearString row) with
  | none => acc
  | some year =>
    let salaryUSD := parseFloat row.salary_in_usd
    if year = 0 ∨ year < 2020 ∨ year > 2024 ∨ salaryUSD.isNaN then acc
    else
      let acc := if acc.hasOwn (yearKey year) then acc
        else acc.setOwn (yearKey year) ⟨0, JSNumber.zero⟩
      match acc.getOwn? (yearKey year) with
      | none => acc
      | some info =>
        acc.setOwn (yearKey year) ⟨info.totalJobs + 1, info.totalSalary.add salaryUSD⟩

/-- The object `grouped` of `processSalaryData`. -/
def groupByYear (data : List RawRecord) : JSObject YearInfo :=
  data.foldl processStep JSObject.empty

/-- The function `processSalaryData` (lines 33-57). -/
def processSalaryData (data : List RawRecord) : List YearSummary :=
  (groupByYear data).entries.map fun e =>
    { year := e.1
      totalJobs := e.2.totalJobs
      averageSalary := (e.2.totalSalary.divNat e.2.totalJobs).toFixed 2 }

/-! ## `sortTable` -/

/-- The column names that the table headers pass to `sortTable`. -/
inductive SortKey where
  | year
  | totalJobs
  | averageSalary
  deriving DecidableEq, Repr

/-- The two values of `sortConfig.direction`. -/
inductive Direction where
  | ascending
  | descending
  deriving DecidableEq, Repr

/-- The state `sortConfig`; its key is `null` until the first sort. -/
structure SortConfig where
  key : Option SortKey
  direction : Direction
  deriving DecidableEq, Repr

/-- The UTF-16 code units of a string. -/
def utf16Units (s : String) : List Nat :=
  s.data.flatMap fun c =>
    if c.toNat < 0x10000 then [c.toNat]
    else [0xD800 + (c.toNat - 0x10000) / 0x400, 0xDC00 + (c.toNat - 0x10000) % 0x400]

/-- The operator `a < b` on two strings: lexicographic on code units. -/
def strLt (a b : String) : Bool := decide (utf16Units a < utf16Units b)

/-- The test `a[key] < b[key]`: `year` and `averageSalary` hold strings,
`totalJobs` a number. -/
def keyLt (key : SortKey) (a b : YearSummary) : Bool :=
  match key with
  | .year => strLt a.year b.year
  | .totalJobs => decide (a.totalJobs < b.totalJobs)
  | .averageSalary => strLt a.averageSalary b.averageSalary

/-- The comparator passed to `sort` (lines 65-73); `a[key] > b[key]` is
`b[key] < a[key]`. -/
def compareRows (key : SortKey) (direction : Direction) (a b : YearSummary) : Int :=
  if keyLt key a b then (if direction = .ascending then -1 else 1)
  else if keyLt key b a then (if direction = .ascending then 1 else -1)
  else 0

/-- The order `a` before `b` that the comparator asks for. -/
def rowsOrdered (key : SortKey) (direction : Direction) (a b : YearSummary) : Prop :=
  compareRows key direction a b ≤ 0

instance (key : SortKey) (direction : Direction) : DecidableRel (rowsOrdered key direction) :=
  fun a b => inferInstanceAs (Decidable (compareRows key direction a b ≤ 0))

/-- The call `[...rows].sort(comparefn)`.  `Array.prototype.sort` is stable and
the comparator is a consistent comparison, which fixes the result: the stable
sort, computed here by insertion. -/
def sortRows (key : SortKey) (direction : Direction) (rows : List YearSummary) :
    List YearSummary :=
  rows.insertionSort (rowsOrdered key direction)

/-! ## `handleRowClick` -/

/-- The values that a property of the job-title accumulator, own or inherited,
can have. -/
inductive JSValue where
  | num (n : Nat)
  | nan
  | str (s : String)
  | builtin (name : String)
  | objectPrototype
  deriving DecidableEq, Repr

/-- A row of the job-title table: `{ jobTitle, count }`. -/
structure JobTitleCount where
  jobTitle : String
  count : JSValue
  deriving DecidableEq, Repr

/-- The names of the function-valued properties of `Object.prototype`, which
every object literal inherits, with the `name` of the function. -/
def objectPrototypeFunctions : List (String × String) :=
  [("constructor", "Object"), ("__defineGetter__", "__defineGetter__"),
   ("__defineSetter__", "__defineSetter__"), ("hasOwnProperty", "hasOwnProperty"),
   ("__lookupGetter__", "__lookupGetter__"), ("__lookupSetter__", "__lookupSetter__"),
   ("isPrototypeOf", "isPrototypeOf"), ("propertyIsEnumerable", "propertyIsEnumerable"),
   ("toString", "toString"), ("valueOf", "valueOf"), ("toLocaleString", "toLocaleString")]

/-- The property read `acc[k]` on an object created by `{}`: an own property,
else what `Object.prototype` provides, else `undefined` (`none`). -/
def getProp (acc : JSObject JSValue) (k : String) : Option JSValue :=
  match acc.getOwn? k with
  | some v => some v
  | none =>
    if k = "__proto__" then some .objectPrototype
    else (objectPrototypeFunctions.lookup k).map .builtin

/-- The assignment `acc[k] = v` of a number or string on an object created by
`{}`: the inherited `__proto__` setter ignores such a value, every other key
becomes or stays an own property. -/
def setProp (acc : JSObject JSValue) (k : String) (v : JSValue) : JSObject JSValue :=
  if k = "__proto__" then acc else acc.setOwn k v

/-- The conversion `ToBoolean` of a property read. -/
def truthy : Option JSValue → Bool
  | none => false
  | some (.num n) => n ≠ 0
  | some .nan => false
  | some (.str s) => s ≠ ""
  | some (.builtin _) => true
  | some .objectPrototype => true

/-- The value of `v + 1`.  A built-in function converts to its source text (as
V8 prints it) and `Object.prototype` to `"[object Object]"`. -/
def addOne : Option JSValue → JSValue
  | none => .nan
  | some (.num n) => .num (n + 1)
  | some .nan => .nan
  | some (.str s) => .str (s ++ "1")
  | some (.builtin name) => .str ("function " ++ name ++ "() \x7b [native code] \x7d1")
  | some .objectPrototype => .str "[object Object]1"

/-- The reducer of `handleRowClick` (lines 83-90). -/
def countStep (acc : JSObject JSValue) (row : RawRecord) : JSObject JSValue :=
  let jobTitle := row.job_title
  let acc := if !truthy (getProp acc jobTitle) then setProp acc jobTitle (.num 0) else acc
  setProp acc jobTitle (addOne (getProp acc jobTitle))

/-- The array `jobTitleArray` of `handleRowClick` (lines 81-95). -/
def jobTitleCounts (salaryData : List RawRecord) (year : String) : List JobTitleCount :=
  let jobTitleGrouped :=
    (salaryData.filter fun row => row.work_year = some year).foldl countStep JSObject.empty
  jobTitleGrouped.entries.map fun e => { jobTitle := e.1, count := e.2 }

/-! ## Component state -/

/-- The five `useState` cells of `App`. -/
structure AppState where
  salaryData : List RawRecord
  tableData : List YearSummary
  sortConfig : SortConfig
  selectedYear : Option String
  jobTitleData : List JobTitleCount
  deriving DecidableEq, Repr

/-- The state at mount (lines 8-12). -/
def initialState : AppState :=
  { salaryData := [], tableData := [], sortConfig := ⟨none, .ascending⟩,
    selectedYear := none, jobTitleData := [] }

/-- The `complete` callback of `Papa.parse` (lines 22-26). -/
def loadComplete (st : AppState) (data : List RawRecord) : AppState :=
  { st with tableData := processSalaryData data, salaryData := data }

/-- The direction that `sortTable(key)` chooses (lines 60-63). -/
def nextDirection (config : SortConfig) (key : SortKey) : Direction :=
  if config.key = some key ∧ config.direction = .ascending then .descending else .ascending

/-- The handler `sortTable` (lines 59-77). -/
def sortTable (st : AppState) (key : SortKey) : AppState :=
  let direction := nextDirection st.sortConfig key
  let sortedData := sortRows key direction st.tableData
  { st with sortConfig := ⟨some key, direction⟩, tableData := sortedData }

/-- The handler `handleRowClick` (lines 79-98). -/
def handleRowClick (st : AppState) (year : String) : AppState :=
  { st with selectedYear := some year, jobTitleData := jobTitleCounts st.salaryData year }

/-! ## Notions used to state the properties -/

/-- The guard of line 38 lets the record through, with `Y` the year that
`parseInt` returns: `parseInt(row.work_year)` is `Y`, `2020 ≤ Y ≤ 2024`, and
`isNaN(parseFloat(row.salary_in_usd))` is false.  This is the code's own test;
`CountsFor` below says which records pass it. -/
def qualifiesFor (Y : Int) (row : RawRecord) : Prop :=
  parseInt (workYearString row) = some Y ∧ 2020 ≤ Y ∧ Y ≤ 2024 ∧
    (parseFloat row.salary_in_usd).isNaN = false

instance (Y : Int) : DecidablePred (qualifiesFor Y) :=
  fun _ => inferInstanceAs (Decidable (_ ∧ _ ∧ _ ∧ _))

/-- The records that the guard lets through for year `Y`, in input order. -/
def yearRecords (data : List RawRecord) (Y : Int) : List RawRecord :=
  data.filter (qualifiesFor Y)

/-- The Number sum of the salaries of the given records, added in order from
`0` as the reducer does. -/
def salarySum (rows : List RawRecord) : JSNumber :=
  rows.foldl (fun s row => s.add (parseFloat row.salary_in_usd)) JSNumber.zero

/-- The `{ totalJobs, totalSalary }` of a year after one more record of that
year with the given salary, from the value `acc[year]` before it. -/
def bumpInfo (o : Option YearInfo) (salary : JSNumber) : YearInfo :=
  { totalJobs := (o.getD ⟨0, JSNumber.zero⟩).totalJobs + 1
    totalSalary := (o.getD ⟨0, JSNumber.zero⟩).totalSalary.add salary }

/-- The yearly row that the qualifying records of year `Y` call for: their
number, and their Number sum divided by their number, printed by `toFixed(2)`. -/
def expectedSummary (data : List RawRecord) (Y : Int) : YearSummary :=
  { year := yearKey Y
    totalJobs := (yearRecords data Y).length
    averageSalary :=
      ((salarySum (yearRecords data Y)).divNat (yearRecords data Y).length).toFixed 2 }

/-- The three rows of the example of the specification. -/
def exampleRows : List RawRecord :=
  [⟨some "2021", "100000", "ML Engineer"⟩, ⟨some "2021", "200000", "Data Scientist"⟩,
   ⟨some "2019", "50000", "X"⟩]

/-- Is `s` a decimal numeral with exactly two fractional digits: an optional
`-`, one or more digits, a point, two digits? -/
def isFixed2 (s : String) : Bool :=
  let cs := match s.data with
    | '-' :: t => t
    | t => t
  !(cs.takeWhile isDecimalDigit).isEmpty &&
    match cs.dropWhile isDecimalDigit with
    | ['.', a, b] => isDecimalDigit a && isDecimalDigit b
    | _ => false

/-- Is the Number finite and of magnitude below `10^21`? -/
def JSNumber.isFiniteBelow1e21 : JSNumber → Bool
  | .fin _ mant exp => !JSNumber.scaledLe mant (10 ^ 21) (-exp)
  | _ => false

/-- The other direction. -/
def Direction.flip : Direction → Direction
  | .ascending => .descending
  | .descending => .ascending

/-- The `year` strings of the rows that `processSalaryData` emits: the
numerals of 2020 to 2024. -/
def validYearKeys : List String := ([2020, 2021, 2022, 2023, 2024] : List Int).map yearKey

/-- The number that the numeral `year` of a row writes. -/
def yearNumber (row : YearSummary) : Nat := digitsValue 10 row.year.data

/-- Row `a` is not after row `b` in a column: `year` and `totalJobs` by
numeric value, `averageSalary` by the string order `<` of the source. -/
def keyLe (key : SortKey) (a b : YearSummary) : Prop :=
  match key with
  | .year => yearNumber a ≤ yearNumber b
  | .totalJobs => a.totalJobs ≤ b.totalJobs
  | .averageSalary => strLt b.averageSalary a.averageSalary = false

/-- The order that a direction asks of two consecutive rows. -/
def inDirection (key : SortKey) (direction : Direction) (a b : YearSummary) : Prop :=
  match direction with
  | .ascending => keyLe key a b
  | .descending => keyLe key b a

/-- A table of two rows whose average salaries compare differently as strings
and as numbers. -/
def twoRowState : AppState :=
  { initialState with
    tableData := [⟨"2020", 1, "20000.00"⟩, ⟨"2021", 5, "100000.00"⟩] }

/-- A value that orders the rows as `a[key] < b[key]` does. -/
def sortValue (key : SortKey) (row : YearSummary) : List Nat :=
  match key with
  | .year => utf16Units row.year
  | .totalJobs => [row.totalJobs]
  | .averageSalary => utf16Units row.averageSalary

/-- The distinct elements of a list in order of first occurrence. -/
def firstOccurrences : List String → List String
  | [] => []
  | a :: l => a :: (firstOccurrences l).filter fun b => b ≠ a

/-- The job titles of the records that `handleRowClick(year)` keeps, in input
order. -/
def selectedTitles (salaryData : List RawRecord) (year : String) : List String :=
  (salaryData.filter fun row => row.work_year = some year).map fun row => row.job_title

/-- Is the string an array index, a canonical numeral below `2^32 - 1`? -/
def isArrayIndex (k : String) : Bool := (JSObject.arrayIndex? k).isSome

/-- The number that an array index writes (`0` for another string). -/
def arrayIndexValue (k : String) : Nat := (JSObject.arrayIndex? k).getD 0

/-- The property names that an object created by `{}` inherits from
`Object.prototype`. -/
def inheritedNames : List String := "__proto__" :: objectPrototypeFunctions.map Prod.fst

/-- The number held by a property read, `0` when it holds none. -/
def numberOf : Option JSValue → Nat
  | some (.num n) => n
  | _ => 0

/-- Every own property of the accumulator holds a positive number. -/
def CountsOnly (acc : JSObject JSValue) : Prop :=
  ∀ k v, acc.getOwn? k = some v → ∃ n, v = .num (n + 1)

/-- A record sequence with one job titled like a property of
`Object.prototype`. -/
def inheritedTitleRows : List RawRecord := [⟨some "2021", "100000", "constructor"⟩]

/-- A record sequence whose only job is titled `__proto__`. -/
def protoTitleRows : List RawRecord := [⟨some "2021", "100000", "__proto__"⟩]

/-- The sum of the counts of a job-title table (a count that is no number
counts as `0`). -/
def countTotal (rows : List JobTitleCount) : Nat :=
  (rows.map fun c => numberOf (some c.count)).sum


/-! ## The wording of the claims on years and salaries

Two readings of "a record of year `Y` with a salary that parses".  The first
takes the fields as the plain decimal texts that the specification speaks of;
the second describes, without `parseInt` and `parseFloat`, the texts that
these two functions accept: a numeral at the start of the field, whatever
follows it. -/

/-- The text is an integer equal to `Y`: an optional sign and one or more
decimal digits, nothing else, of value `Y`. -/
def isIntegerText (s : String) (Y : Int) : Bool :=
  match s.data with
  | '-' :: ds => !ds.isEmpty && ds.all isDecimalDigit && decide (-(digitsValue 10 ds : Int) = Y)
  | '+' :: ds => !ds.isEmpty && ds.all isDecimalDigit && decide ((digitsValue 10 ds : Int) = Y)
  | ds => !ds.isEmpty && ds.all isDecimalDigit && decide ((digitsValue 10 ds : Int) = Y)

/-- The text is a plain decimal number: an optional sign, digits, and
optionally a point and digits, with at least one digit, nothing else. -/
def isNumberText (s : String) : Bool :=
  let t := match s.data with
    | '-' :: t => t
    | '+' :: t => t
    | t => t
  let i := t.takeWhile isDecimalDigit
  match t.dropWhile isDecimalDigit with
  | [] => !i.isEmpty
  | '.' :: f => f.all isDecimalDigit && (!i.isEmpty || !f.isEmpty)
  | _ => false

/-- A qualifying record of year `Y` in the plain reading: `work_year` is the
integer `Y`, `2020 ≤ Y ≤ 2024`, and `salary_in_usd` is a number. -/
def qualifiesPlainly (Y : Int) (row : RawRecord) : Bool :=
  (match row.work_year with
    | some s => isIntegerText s Y
    | none => false) &&
    decide (2020 ≤ Y) && decide (Y ≤ 2024) && isNumberText row.salary_in_usd

/-- A record of year 2019 or 2025, or with a `work_year` or a `salary_in_usd`
that is no number, in the plain reading. -/
def isExcludedPlainly (row : RawRecord) : Bool :=
  (match row.work_year with
    | some s => isIntegerText s 2019 || isIntegerText s 2025 || !isNumberText s
    | none => true) ||
    !isNumberText row.salary_in_usd

/-- The text is white space, then an optional sign (`neg` tells whether it is
`-`), then `body`. -/
def SplitsAs (text : List Char) (neg : Bool) (body : List Char) : Prop :=
  ∃ ws : List Char, (∀ c ∈ ws, isStrWhiteSpaceChar c = true) ∧
    ((text = ws ++ body ∧ neg = false) ∨ (text = ws ++ '+' :: body ∧ neg = false) ∨
      (text = ws ++ '-' :: body ∧ neg = true))

/-- The list `body` begins with the non-empty run `ds` of digits of the radix,
and no digit of the radix follows the run. -/
def BeginsWithDigits (radix : Nat) (body ds : List Char) : Prop :=
  ds ≠ [] ∧ (∀ c ∈ ds, (digitValue? radix c).isSome = true) ∧
    ∃ rest, body = ds ++ rest ∧ ∀ c, rest.head? = some c → (digitValue? radix c).isSome = false

/-- The list `body` begins with a numeral of the natural number `n`: after
`0x` or `0X` a run of hexadecimal digits, otherwise a run of decimal digits. -/
def BeginsWithNumeral (body : List Char) (n : Nat) : Prop :=
  (∃ h ds, (body = '0' :: 'x' :: h ∨ body = '0' :: 'X' :: h) ∧ BeginsWithDigits 16 h ds ∧
      n = digitsValue 16 ds) ∨
    ((∀ h, body ≠ '0' :: 'x' :: h ∧ body ≠ '0' :: 'X' :: h) ∧
      ∃ ds, BeginsWithDigits 10 body ds ∧ n = digitsValue 10 ds)

/-- The text has a leading integer numeral of value `Y`: white space, an
optional sign, a numeral; what follows the numeral is not looked at. -/
def LeadingInteger (s : String) (Y : Int) : Prop :=
  ∃ neg body n, SplitsAs s.data neg body ∧ BeginsWithNumeral body n ∧
    Y = if neg = true then -(n : Int) else (n : Int)

/-- The list `body` begins with `Infinity`, with a decimal digit, or with a
point and a decimal digit. -/
def BeginsNumber (body : List Char) : Prop :=
  (∃ rest, body = "Infinity".data ++ rest) ∨
    (∃ d rest, body = d :: rest ∧ isDecimalDigit d = true) ∨
    (∃ d rest, body = '.' :: d :: rest ∧ isDecimalDigit d = true)

/-- The text has a leading number: white space, an optional sign, and the
beginning of a decimal literal or `Infinity`; what follows is not looked at. -/
def LeadingNumber (s : String) : Prop :=
  ∃ neg body, SplitsAs s.data neg body ∧ BeginsNumber body

/-- A record that counts for year `Y`: `work_year` is present and has a leading
integer numeral of value `Y`, `2020 ≤ Y ≤ 2024`, and `salary_in_usd` has a
leading number. -/
def CountsFor (Y : Int) (row : RawRecord) : Prop :=
  (∃ s, row.work_year = some s ∧ LeadingInteger s Y) ∧ 2020 ≤ Y ∧ Y ≤ 2024 ∧
    LeadingNumber row.salary_in_usd

/-- A record that counts for no year: `work_year` is absent or has no leading
integer numeral, or its leading numeral is 2019 or 2025, or `salary_in_usd`
has no leading number. -/
def CountsForNone (row : RawRecord) : Prop :=
  (∀ s, row.work_year = some s → ∀ Y, ¬ LeadingInteger s Y) ∨
    (∃ s, row.work_year = some s ∧ (LeadingInteger s 2019 ∨ LeadingInteger s 2025)) ∨
    ¬ LeadingNumber row.salary_in_usd

/-- The statement "`n` of the elements of the list satisfy `P`". -/
inductive CountIs {α : Type} (P : α → Prop) : List α → Nat → Prop where
  | nil : CountIs P [] 0
  | yes {a : α} {l : List α} {n : Nat} : P a → CountIs P l n → CountIs P (a :: l) (n + 1)
  | no {a : α} {l : List α} {n : Nat} : ¬ P a → CountIs P l n → CountIs P (a :: l) n

/-- The statement "`kept` is the list with all elements that satisfy `P`
removed". -/
inductive RemovesAll {α : Type} (P : α → Prop) : List α → List α → Prop where
  | nil : RemovesAll P [] []
  | drop {a : α} {l kept : List α} : P a → RemovesAll P l kept → RemovesAll P (a :: l) kept
  | keep {a : α} {l kept : List α} :
      ¬ P a → RemovesAll P l kept → RemovesAll P (a :: l) (a :: kept)

/-- A record whose year is followed by further text. -/
def trailingTextRows : List RawRecord := [⟨some "2021abc", "100000", "ML Engineer"⟩]

/-- Records of 2021 of which the second has text after the year, the third a
salary that is no number and the fourth a salary with text after the number,
and a record of 2019. -/
def mixedRows : List RawRecord :=
  [⟨some "2021", "10", "ML Engineer"⟩, ⟨some "2021abc", "20", "ML Engineer"⟩,
   ⟨some "2021", "abc", "ML Engineer"⟩, ⟨some "2021", "30 USD", "Data Scientist"⟩,
   ⟨some "2019", "5", "Data Scientist"⟩]

/-- The records of `mixedRows` that count for a year. -/
def countingRows : List RawRecord :=
  [⟨some "2021", "10", "ML Engineer"⟩, ⟨some "2021abc", "20", "ML Engineer"⟩,
   ⟨some "2021", "30 USD", "Data Scientist"⟩]


/-! ## Lemmas on objects -/

namespace JSObject

variable {α : Type}

theorem hasOwn_iff_mem_keys (o : JSObject α) (k : String) :
    o.hasOwn k = true ↔ k ∈ o.keys := by
  simp [hasOwn, keys]

theorem getOwn?_eq_none_iff (o : JSObject α) (k : String) :
    o.getOwn? k = none ↔ k ∉ o.keys := by
  simp only [getOwn?, keys, Option.map_eq_none', List.find?_eq_none, List.mem_map, not_exists,
    not_and, decide_eq_true_eq, Prod.forall]

theorem hasOwn_eq_isSome (o : JSObject α) (k : String) :
    o.hasOwn k = (o.getOwn? k).isSome := by
  cases h : o.getOwn? k with
  | none =>
    have := (getOwn?_eq_none_iff o k).1 h
    simpa [← hasOwn_iff_mem_keys] using this
  | some v =>
    have : o.getOwn? k ≠ none := by simp [h]
    rw [Ne, getOwn?_eq_none_iff, not_not, ← hasOwn_iff_mem_keys] at this
    simpa using this

theorem find?_map_set (l : List (String × α)) (k k' : String) (v : α) :
    ((l.map fun p => if p.1 = k then (k, v) else p).find? fun p => p.1 = k').map Prod.snd =
      if k' = k then (if k ∈ l.map Prod.fst then some v else none)
      else (l.find? fun p => p.1 = k').map Prod.snd := by
  induction l with
  | nil => simp
  | cons p l ih =>
    simp only [List.map_cons, List.find?_cons, List.mem_cons]
    by_cases hp : p.1 = k
    · by_cases hkk : k' = k
      · simp only [hp, hkk, if_true, decide_True, Option.map_some', true_or]
      · have hkk2 : ¬ k = k' := fun h => hkk h.symm
        simp only [hp, hkk, hkk2, if_true, if_false, decide_False]
        rw [ih, if_neg hkk]
    · have hp2 : ¬ k = p.1 := fun h => hp h.symm
      by_cases hpk : p.1 = k'
      · have hkk : ¬ k' = k := fun h => hp (hpk.trans h)
        simp only [hp, hpk, hkk, if_false, decide_True, Option.map_some']
      · simp only [hp, hp2, hpk, if_false, decide_False, false_or]
        rw [ih]

theorem getOwn?_setOwn (o : JSObject α) (k k' : String) (v : α) :
    (o.setOwn k v).getOwn? k' = if k' = k then some v else o.getOwn? k' := by
  unfold setOwn
  by_cases h : o.hasOwn k = true
  · rw [if_pos h]
    have hk := (hasOwn_iff_mem_keys o k).1 h
    unfold keys at hk
    show Option.map Prod.snd (List.find? _ (List.map _ o.props)) = _
    rw [find?_map_set, if_pos hk]
    rfl
  · rw [if_neg h]
    have hnone : o.getOwn? k = none := by
      rw [getOwn?_eq_none_iff, ← hasOwn_iff_mem_keys]; exact h
    by_cases hkk : k' = k
    · subst hkk
      unfold getOwn? at hnone ⊢
      simp only [Option.map_eq_none'] at hnone
      simp [List.find?_append, hnone]
    · have hkk2 : ¬ k = k' := fun h => hkk h.symm
      unfold getOwn?
      simp only [List.find?_append, if_neg hkk]
      cases hf : List.find? (fun p => decide (p.1 = k')) o.props with
      | none => simp [List.find?, hkk2]
      | some q => simp

theorem keys_setOwn (o : JSObject α) (k : String) (v : α) :
    (o.setOwn k v).keys = if o.hasOwn k = true then o.keys else o.keys ++ [k] := by
  unfold setOwn keys
  by_cases h : o.hasOwn k = true
  · simp only [if_pos h, List.map_map]
    apply List.map_congr_left
    intro p _
    by_cases hp : p.1 = k <;> simp [hp]
  · simp [if_neg h]

theorem getOwn?_eq_some_iff (o : JSObject α) (hnd : o.keys.Nodup) (k : String) (v : α) :
    o.getOwn? k = some v ↔ (k, v) ∈ o.props := by
  obtain ⟨l⟩ := o
  unfold getOwn? keys at *
  simp only at *
  induction l with
  | nil => simp
  | cons p l ih =>
    rw [List.map_cons, List.nodup_cons] at hnd
    by_cases hp : p.1 = k
    · have hnot : ∀ w, (k, w) ∉ l := by
        intro w hw
        exact hnd.1 (by rw [hp]; simpa using ⟨w, hw⟩)
      constructor
      · intro h
        simp [List.find?, hp] at h
        rw [← h, ← hp]
        simp
      · intro h
        rcases List.mem_cons.1 h with h | h
        · simp [List.find?, ← h]
        · exact absurd h (hnot v)
    · have : (k, v) ≠ p := fun h => hp (by rw [← h])
      simp [List.find?, hp, ih hnd.2, this]

theorem entries_perm (o : JSObject α) : o.entries.Perm o.props := by
  unfold entries
  have h1 := List.perm_insertionSort (fun p q : String × α => indexOf p ≤ indexOf q)
    (o.props.filter fun p => (arrayIndex? p.1).isSome)
  have h2 : (o.props.filter fun p => (arrayIndex? p.1).isNone) =
      o.props.filter fun p => !(arrayIndex? p.1).isSome := by
    congr 1
    funext p
    cases arrayIndex? p.1 <;> rfl
  rw [h2]
  exact (h1.append_right _).trans (List.filter_append_perm _ _)

theorem mem_entries (o : JSObject α) (p : String × α) : p ∈ o.entries ↔ p ∈ o.props :=
  (entries_perm o).mem_iff

end JSObject


/-! ## Decimal numerals -/

theorem digitValue?_digitChar (d : Nat) (h : d < 10) :
    digitValue? 10 (Nat.digitChar d) = some d := by
  interval_cases d <;> decide

theorem foldl_toDigitsCore (fuel : Nat) : ∀ (n : Nat) (ds : List Char), n < fuel →
    (Nat.toDigitsCore 10 fuel n ds).foldl
        (fun acc c => acc * 10 + (digitValue? 10 c).getD 0) 0 =
      ds.foldl (fun acc c => acc * 10 + (digitValue? 10 c).getD 0) n := by
  induction fuel with
  | zero => intro n ds h; omega
  | succ fuel ih =>
    intro n ds h
    unfold Nat.toDigitsCore
    simp only
    by_cases h0 : n / 10 = 0
    · rw [if_pos h0]
      have hn : n % 10 = n := by omega
      rw [List.foldl_cons, digitValue?_digitChar (n % 10) (Nat.mod_lt _ (by decide)), hn]
      simp
    · rw [if_neg h0, ih (n / 10) _ (by omega)]
      simp only [List.foldl_cons, digitValue?_digitChar (n % 10) (Nat.mod_lt _ (by decide)),
        Option.getD_some]
      congr 1
      omega

theorem digitsValue_repr (n : Nat) : digitsValue 10 (Nat.repr n).data = n := by
  unfold digitsValue Nat.repr Nat.toDigits
  exact foldl_toDigitsCore (n + 1) n [] (by omega)

theorem repr_injective {a b : Nat} (h : Nat.repr a = Nat.repr b) : a = b := by
  rw [← digitsValue_repr a, ← digitsValue_repr b, h]

theorem yearKey_ofNat (n : Nat) : yearKey (n : Int) = Nat.repr n := rfl

theorem yearKey_eq_iff (Y : Int) (n : Nat) (h1 : 2020 ≤ n) (h2 : n ≤ 2024) :
    yearKey Y = yearKey (n : Int) ↔ Y = (n : Int) := by
  constructor
  · intro h
    cases Y with
    | ofNat m =>
      have : Nat.repr m = Nat.repr n := h
      rw [repr_injective this]
      rfl
    | negSucc m =>
      exfalso
      have h3 : ("-" ++ Nat.repr (m + 1)).data = (Nat.repr n).data := congrArg String.data h
      rw [String.data_append] at h3
      have h4 : (Nat.repr n).data.head? = some '2' := by interval_cases n <;> decide
      rw [← h3] at h4
      simp at h4
  · intro h; rw [h]

theorem arrayIndex?_repr (n : Nat) (h : n < 2 ^ 32 - 1) :
    JSObject.arrayIndex? (Nat.repr n) = some n := by
  have h2 : n < 4294967295 := by simpa using h
  simp [JSObject.arrayIndex?, digitsValue_repr, h2]

theorem arrayIndex?_eq_some {k : String} {n : Nat} (h : JSObject.arrayIndex? k = some n) :
    Nat.repr n = k ∧ n < 2 ^ 32 - 1 := by
  unfold JSObject.arrayIndex? at h
  simp only at h
  split at h
  · rename_i hc
    cases h
    exact hc
  · cases h


/-! ## The reducer of `processSalaryData` -/

theorem qualifiesFor_unique {Y Z : Int} {row : RawRecord} (h1 : qualifiesFor Y row)
    (h2 : qualifiesFor Z row) : Y = Z := by
  have := h1.1.symm.trans h2.1
  exact Option.some.inj this

theorem processStep_of_not_qualifying (acc : JSObject YearInfo) (row : RawRecord)
    (h : ∀ Y, ¬ qualifiesFor Y row) : processStep acc row = acc := by
  unfold processStep
  cases hp : parseInt (workYearString row) with
  | none => rfl
  | some year =>
    simp only
    by_cases hg : year = 0 ∨ year < 2020 ∨ year > 2024 ∨ (parseFloat row.salary_in_usd).isNaN = true
    · rw [if_pos hg]
    · exfalso
      apply h year
      refine ⟨hp, ?_, ?_, ?_⟩
      · omega
      · omega
      · cases hn : (parseFloat row.salary_in_usd).isNaN
        · rfl
        · exact absurd (Or.inr (Or.inr (Or.inr hn))) hg

theorem processStep_of_qualifying (acc : JSObject YearInfo) (row : RawRecord) (Y : Int)
    (h : qualifiesFor Y row) :
    processStep acc row =
      acc.setOwn (yearKey Y) (bumpInfo (acc.getOwn? (yearKey Y)) (parseFloat row.salary_in_usd)) ∨
    processStep acc row =
      (acc.setOwn (yearKey Y) ⟨0, JSNumber.zero⟩).setOwn (yearKey Y)
        (bumpInfo (acc.getOwn? (yearKey Y)) (parseFloat row.salary_in_usd)) ∧
      acc.hasOwn (yearKey Y) = false := by
  obtain ⟨hp, h1, h2, h3⟩ := h
  unfold processStep
  rw [hp]
  simp only
  have hg : ¬ (Y = 0 ∨ Y < 2020 ∨ Y > 2024 ∨ (parseFloat row.salary_in_usd).isNaN = true) := by
    rw [h3]
    simp
    omega
  rw [if_neg hg]
  by_cases hh : acc.hasOwn (yearKey Y) = true
  · left
    rw [if_pos hh]
    have := JSObject.hasOwn_eq_isSome acc (yearKey Y)
    rw [hh] at this
    cases hgo : acc.getOwn? (yearKey Y) with
    | none => rw [hgo] at this; simp at this
    | some info => rfl
  · right
    rw [if_neg hh]
    refine ⟨?_, by simpa using hh⟩
    have hnone : acc.getOwn? (yearKey Y) = none := by
      have := JSObject.hasOwn_eq_isSome acc (yearKey Y)
      cases hgo : acc.getOwn? (yearKey Y) with
      | none => rfl
      | some info => rw [hgo] at this; simp at this; exact absurd this hh
    rw [JSObject.getOwn?_setOwn, if_pos rfl, hnone]
    rfl

theorem getOwn?_processStep (acc : JSObject YearInfo) (row : RawRecord) (Y : Int)
    (h : qualifiesFor Y row) (k : String) :
    (processStep acc row).getOwn? k =
      if k = yearKey Y then
        some (bumpInfo (acc.getOwn? (yearKey Y)) (parseFloat row.salary_in_usd))
      else acc.getOwn? k := by
  rcases processStep_of_qualifying acc row Y h with h1 | ⟨h1, _⟩
  · rw [h1, JSObject.getOwn?_setOwn]
  · rw [h1, JSObject.getOwn?_setOwn, JSObject.getOwn?_setOwn]
    by_cases hk : k = yearKey Y <;> simp [hk]

theorem keys_processStep (acc : JSObject YearInfo) (row : RawRecord) (Y : Int)
    (h : qualifiesFor Y row) :
    (processStep acc row).keys =
      if yearKey Y ∈ acc.keys then acc.keys else acc.keys ++ [yearKey Y] := by
  rcases processStep_of_qualifying acc row Y h with h1 | ⟨h1, h2⟩
  · rw [h1, JSObject.keys_setOwn]
    simp only [JSObject.hasOwn_iff_mem_keys]
  · have h3 : yearKey Y ∉ acc.keys := by
      rw [← JSObject.hasOwn_iff_mem_keys, h2]; simp
    rw [h1, JSObject.keys_setOwn, JSObject.keys_setOwn, if_neg h3]
    simp only [h2, Bool.false_eq_true, if_false]
    rw [if_pos]
    rw [JSObject.hasOwn_iff_mem_keys, JSObject.keys_setOwn]
    simp [h2]


theorem yearKey_inj_of_range {Y Z : Int} (h1 : 2020 ≤ Z) (h2 : Z ≤ 2024)
    (h : yearKey Y = yearKey Z) : Y = Z := by
  have hZ : Z = (Z.toNat : Int) := by omega
  rw [hZ] at h ⊢
  exact (yearKey_eq_iff Y Z.toNat (by omega) (by omega)).1 h

theorem foldl_bump_some (rows : List RawRecord) (info : YearInfo) :
    rows.foldl (fun o r => some (bumpInfo o (parseFloat r.salary_in_usd))) (some info) =
      some ⟨info.totalJobs + rows.length,
        rows.foldl (fun s r => s.add (parseFloat r.salary_in_usd)) info.totalSalary⟩ := by
  induction rows generalizing info with
  | nil => rfl
  | cons r rows ih =>
    rw [List.foldl_cons, ih]
    simp only [bumpInfo, Option.getD_some, List.length_cons, List.foldl_cons]
    congr 2
    omega

theorem foldl_bump_none (rows : List RawRecord) :
    rows.foldl (fun o r => some (bumpInfo o (parseFloat r.salary_in_usd))) none =
      if rows = [] then none else some ⟨rows.length, salarySum rows⟩ := by
  cases rows with
  | nil => rfl
  | cons r rows =>
    rw [List.foldl_cons, foldl_bump_some, if_neg (List.cons_ne_nil _ _)]
    simp only [bumpInfo, Option.getD_none, List.length_cons, salarySum, List.foldl_cons]
    congr 2
    omega

theorem getOwn?_foldl_processStep (data : List RawRecord) (acc : JSObject YearInfo) (Y : Int) :
    (data.foldl processStep acc).getOwn? (yearKey Y) =
      (yearRecords data Y).foldl (fun o r => some (bumpInfo o (parseFloat r.salary_in_usd)))
        (acc.getOwn? (yearKey Y)) := by
  induction data generalizing acc with
  | nil => rfl
  | cons r data ih =>
    rw [List.foldl_cons, ih]
    unfold yearRecords
    by_cases hq : qualifiesFor Y r
    · rw [List.filter_cons_of_pos (by simpa using hq), List.foldl_cons,
        getOwn?_processStep acc r Y hq, if_pos rfl]
    · rw [List.filter_cons_of_neg (by simpa using hq)]
      by_cases hz : ∃ Z, qualifiesFor Z r
      · obtain ⟨Z, hz⟩ := hz
        have hne : yearKey Y ≠ yearKey Z := by
          intro hk
          have := yearKey_inj_of_range hz.2.1 hz.2.2.1 hk
          rw [this] at hq
          exact hq hz
        rw [getOwn?_processStep acc r Z hz, if_neg hne]
      · rw [processStep_of_not_qualifying acc r (fun Z hZ => hz ⟨Z, hZ⟩)]

theorem getOwn?_groupByYear (data : List RawRecord) (Y : Int) :
    (groupByYear data).getOwn? (yearKey Y) =
      if yearRecords data Y = [] then none
      else some ⟨(yearRecords data Y).length, salarySum (yearRecords data Y)⟩ := by
  unfold groupByYear
  rw [getOwn?_foldl_processStep data _ Y]
  exact foldl_bump_none _

theorem keys_foldl_processStep (data : List RawRecord) (acc : JSObject YearInfo) :
    ∀ k ∈ (data.foldl processStep acc).keys,
      k ∈ acc.keys ∨ ∃ Y, k = yearKey Y ∧ ∃ r ∈ data, qualifiesFor Y r := by
  induction data generalizing acc with
  | nil => intro k hk; exact Or.inl hk
  | cons r data ih =>
    intro k hk
    rw [List.foldl_cons] at hk
    rcases ih _ k hk with h | ⟨Y, hY, r', hr', hq⟩
    · by_cases hz : ∃ Z, qualifiesFor Z r
      · obtain ⟨Z, hz⟩ := hz
        rw [keys_processStep acc r Z hz] at h
        split at h
        · exact Or.inl h
        · rcases List.mem_append.1 h with h | h
          · exact Or.inl h
          · right
            exact ⟨Z, by simpa using h, r, List.mem_cons_self _ _, hz⟩
      · rw [processStep_of_not_qualifying acc r (fun Z hZ => hz ⟨Z, hZ⟩)] at h
        exact Or.inl h
    · exact Or.inr ⟨Y, hY, r', List.mem_cons_of_mem _ hr', hq⟩

theorem nodup_keys_foldl_processStep (data : List RawRecord) (acc : JSObject YearInfo)
    (h : acc.keys.Nodup) : (data.foldl processStep acc).keys.Nodup := by
  induction data generalizing acc with
  | nil => exact h
  | cons r data ih =>
    rw [List.foldl_cons]
    apply ih
    by_cases hz : ∃ Z, qualifiesFor Z r
    · obtain ⟨Z, hz⟩ := hz
      rw [keys_processStep acc r Z hz]
      split
      · exact h
      · rename_i hnot
        exact List.Nodup.append h (List.nodup_singleton _) (by simpa using hnot)
    · rw [processStep_of_not_qualifying acc r (fun Z hZ => hz ⟨Z, hZ⟩)]
      exact h

theorem nodup_keys_groupByYear (data : List RawRecord) : (groupByYear data).keys.Nodup :=
  nodup_keys_foldl_processStep data JSObject.empty List.nodup_nil

theorem yearRecords_ne_nil_iff (data : List RawRecord) (Y : Int) :
    yearRecords data Y ≠ [] ↔ ∃ r ∈ data, qualifiesFor Y r := by
  unfold yearRecords
  rw [Ne, List.filter_eq_nil_iff]
  simp

/-- The rows of `processSalaryData` are exactly the expected rows of the years
that have a qualifying record. -/
theorem mem_processSalaryData_iff (data : List RawRecord) (s : YearSummary) :
    s ∈ processSalaryData data ↔
      ∃ Y, (∃ r ∈ data, qualifiesFor Y r) ∧ s = expectedSummary data Y := by
  unfold processSalaryData
  rw [List.mem_map]
  constructor
  · rintro ⟨⟨k, info⟩, he, rfl⟩
    rw [JSObject.mem_entries] at he
    have hk : k ∈ (groupByYear data).keys := by
      unfold JSObject.keys
      exact List.mem_map.2 ⟨(k, info), he, rfl⟩
    rcases keys_foldl_processStep data JSObject.empty k hk with h | ⟨Y, hY, r, hr, hq⟩
    · simp [JSObject.keys, JSObject.empty] at h
    · refine ⟨Y, ⟨r, hr, hq⟩, ?_⟩
      have hget := (JSObject.getOwn?_eq_some_iff _ (nodup_keys_groupByYear data) k info).2 he
      rw [hY, getOwn?_groupByYear data Y,
        if_neg ((yearRecords_ne_nil_iff data Y).2 ⟨r, hr, hq⟩)] at hget
      cases hget
      rw [hY]
      rfl
  · rintro ⟨Y, ⟨r, hr, hq⟩, rfl⟩
    have hget := getOwn?_groupByYear data Y
    rw [if_neg ((yearRecords_ne_nil_iff data Y).2 ⟨r, hr, hq⟩)] at hget
    have hmem := (JSObject.getOwn?_eq_some_iff _ (nodup_keys_groupByYear data) _ _).1 hget
    exact ⟨_, (JSObject.mem_entries _ _).2 hmem, rfl⟩


/-! ## Properties of `processSalaryData` -/

theorem nodup_years_processSalaryData (data : List RawRecord) :
    ((processSalaryData data).map fun s => s.year).Nodup := by
  unfold processSalaryData
  rw [List.map_map]
  have h : ((groupByYear data).entries.map Prod.fst).Perm (groupByYear data).keys :=
    (JSObject.entries_perm _).map _
  exact h.nodup_iff.2 (nodup_keys_groupByYear data)

/-- A row for year `Y` is emitted if and only if the guard lets some record
through for `Y`, and never two rows for one year. -/
theorem summary_emitted_iff_guard (data : List RawRecord) (Y : Int) :
    ((∃ s ∈ processSalaryData data, s.year = yearKey Y) ↔ ∃ r ∈ data, qualifiesFor Y r) ∧
      (processSalaryData data).countP (fun s => s.year = yearKey Y) ≤ 1 := by
  constructor
  · constructor
    · rintro ⟨s, hs, hy⟩
      obtain ⟨Z, ⟨r, hr, hq⟩, rfl⟩ := (mem_processSalaryData_iff data s).1 hs
      have : Y = Z := yearKey_inj_of_range hq.2.1 hq.2.2.1 hy.symm
      exact ⟨r, hr, this ▸ hq⟩
    · intro h
      exact ⟨expectedSummary data Y, (mem_processSalaryData_iff data _).2 ⟨Y, h, rfl⟩, rfl⟩
  · have h := List.nodup_iff_count_le_one.1 (nodup_years_processSalaryData data) (yearKey Y)
    rw [List.count_eq_countP, List.countP_map] at h
    refine le_trans (le_of_eq ?_) h
    apply List.countP_congr
    intro s _
    simp

/-- The `totalJobs` of the row of year `Y` is the number of records that the
guard lets through for `Y`. -/
theorem totalJobs_eq_guard_count (data : List RawRecord) (s : YearSummary) (Y : Int)
    (hs : s ∈ processSalaryData data) (hY : s.year = yearKey Y) :
    s.totalJobs = (data.filter (qualifiesFor Y)).length := by
  obtain ⟨Z, ⟨r, _, hq⟩, rfl⟩ := (mem_processSalaryData_iff data s).1 hs
  have : Y = Z := yearKey_inj_of_range hq.2.1 hq.2.2.1 hY.symm
  rw [this]
  rfl

theorem foldl_processStep_filter (keep : RawRecord → Bool)
    (hkeep : ∀ r, keep r = false → ∀ Y, ¬ qualifiesFor Y r) (data : List RawRecord)
    (acc : JSObject YearInfo) :
    (data.filter keep).foldl processStep acc = data.foldl processStep acc := by
  induction data generalizing acc with
  | nil => rfl
  | cons r data ih =>
    cases hk : keep r with
    | true => rw [List.filter_cons_of_pos hk, List.foldl_cons, List.foldl_cons, ih]
    | false =>
      rw [List.filter_cons_of_neg (by simp [hk]), List.foldl_cons,
        processStep_of_not_qualifying acc r (hkeep r hk), ih]

/-! ## Order of the yearly rows -/

theorem arrayIndex?_yearKey (Y : Int) (h1 : 2020 ≤ Y) (h2 : Y ≤ 2024) :
    JSObject.arrayIndex? (yearKey Y) = some Y.toNat := by
  have hZ : Y = (Y.toNat : Int) := by omega
  have h3 : Y.toNat < 2 ^ 32 - 1 := by
    have : Y.toNat ≤ 2024 := by omega
    exact lt_of_le_of_lt this (by norm_num)
  conv_lhs => rw [hZ, yearKey_ofNat]
  exact arrayIndex?_repr _ h3

theorem key_groupByYear (data : List RawRecord) (p : String × YearInfo)
    (hp : p ∈ (groupByYear data).props) :
    ∃ Y : Int, (∃ r ∈ data, qualifiesFor Y r) ∧ p.1 = yearKey Y ∧
      (JSObject.indexOf p : Int) = Y := by
  have hk : p.1 ∈ (groupByYear data).keys := List.mem_map.2 ⟨p, hp, rfl⟩
  rcases keys_foldl_processStep data JSObject.empty p.1 hk with h | ⟨Y, hY, r, hr, hq⟩
  · simp [JSObject.keys, JSObject.empty] at h
  · refine ⟨Y, ⟨r, hr, hq⟩, hY, ?_⟩
    unfold JSObject.indexOf
    rw [hY, arrayIndex?_yearKey Y hq.2.1 hq.2.2.1, Option.getD_some]
    have := hq.2.1
    omega

theorem entries_groupByYear (data : List RawRecord) :
    (groupByYear data).entries =
      (groupByYear data).props.insertionSort
        (fun p q => JSObject.indexOf p ≤ JSObject.indexOf q) := by
  unfold JSObject.entries
  have hall : ∀ p ∈ (groupByYear data).props, (JSObject.arrayIndex? p.1).isSome = true := by
    intro p hp
    obtain ⟨Y, ⟨r, _, hq⟩, hY, _⟩ := key_groupByYear data p hp
    rw [hY, arrayIndex?_yearKey Y hq.2.1 hq.2.2.1]
    rfl
  rw [List.filter_eq_self.2 hall, List.filter_eq_nil_iff.2, List.append_nil]
  intro p hp
  have := hall p hp
  cases h : JSObject.arrayIndex? p.1 with
  | none => rw [h] at this; cases this
  | some n => simp

theorem sorted_index_entries (data : List RawRecord) :
    ((groupByYear data).entries.map fun p => (JSObject.indexOf p : Int)).Sorted (· < ·) := by
  have hs : ((groupByYear data).entries).Sorted
      (fun p q : String × YearInfo => JSObject.indexOf p ≤ JSObject.indexOf q) := by
    rw [entries_groupByYear]
    haveI : IsTotal (String × YearInfo) (fun p q => JSObject.indexOf p ≤ JSObject.indexOf q) :=
      ⟨fun a b => le_total _ _⟩
    haveI : IsTrans (String × YearInfo) (fun p q => JSObject.indexOf p ≤ JSObject.indexOf q) :=
      ⟨fun a b c hab hbc => le_trans hab hbc⟩
    exact List.sorted_insertionSort _ _
  have hle : ((groupByYear data).entries.map fun p => (JSObject.indexOf p : Int)).Sorted
      (· ≤ ·) := by
    rw [List.Sorted, List.pairwise_map]
    exact hs.imp (fun h => by exact_mod_cast h)
  have hnd : ((groupByYear data).entries.map fun p => (JSObject.indexOf p : Int)).Nodup := by
    have hk : ((groupByYear data).entries.map Prod.fst).Nodup :=
      (((JSObject.entries_perm (groupByYear data)).map Prod.fst).nodup_iff).2
        (nodup_keys_groupByYear data)
    refine List.Nodup.map_on ?_ (List.Nodup.of_map _ hk)
    intro p hp q hq hpq
    rw [JSObject.mem_entries] at hp hq
    obtain ⟨Y, _, hY, hiY⟩ := key_groupByYear data p hp
    obtain ⟨Z, _, hZ, hiZ⟩ := key_groupByYear data q hq
    have hkey : p.1 = q.1 := by rw [hY, hZ, ← hiY, ← hiZ, hpq]
    have hnd := nodup_keys_groupByYear data
    have h1 := (JSObject.getOwn?_eq_some_iff _ hnd p.1 p.2).2 hp
    have h2 := (JSObject.getOwn?_eq_some_iff _ hnd q.1 q.2).2 hq
    rw [hkey, h2] at h1
    exact Prod.ext hkey (Option.some.inj h1).symm
  exact hle.lt_of_le hnd

/-- C5, as the code has it: the rows are in ascending order of year, whatever
the order of the input, because `grouped` is keyed by integers. -/
theorem years_ascending (data : List RawRecord) :
    (processSalaryData data).map (fun s => s.year) =
      (([2020, 2021, 2022, 2023, 2024] : List Int).filter
        fun Y => ∃ r ∈ data, qualifiesFor Y r).map yearKey := by
  have hkeys : (processSalaryData data).map (fun s => s.year) =
      ((groupByYear data).entries.map fun p => (JSObject.indexOf p : Int)).map yearKey := by
    unfold processSalaryData
    rw [List.map_map, List.map_map]
    apply List.map_congr_left
    intro p hp
    rw [JSObject.mem_entries] at hp
    obtain ⟨Y, _, hY, hiY⟩ := key_groupByYear data p hp
    simp only [Function.comp, hiY, hY]
  rw [hkeys]
  congr 1
  apply List.eq_of_perm_of_sorted _ (sorted_index_entries data)
  · exact List.Sorted.filter _ (by decide)
  · apply (List.perm_ext_iff_of_nodup (sorted_index_entries data).nodup
      (List.Nodup.filter _ (by decide))).2
    intro Y
    simp only [List.mem_map, List.mem_filter, decide_eq_true_eq]
    constructor
    · rintro ⟨p, hp, rfl⟩
      rw [JSObject.mem_entries] at hp
      obtain ⟨Y, ⟨r, hr, hq⟩, _, hiY⟩ := key_groupByYear data p hp
      rw [hiY]
      refine ⟨?_, r, hr, hq⟩
      have h1 := hq.2.1
      have h2 := hq.2.2.1
      have : Y = 2020 ∨ Y = 2021 ∨ Y = 2022 ∨ Y = 2023 ∨ Y = 2024 := by omega
      simpa using this
    · rintro ⟨_, r, hr, hq⟩
      have hget := getOwn?_groupByYear data Y
      rw [if_neg ((yearRecords_ne_nil_iff data Y).2 ⟨r, hr, hq⟩)] at hget
      have hmem := (JSObject.getOwn?_eq_some_iff _ (nodup_keys_groupByYear data) _ _).1 hget
      refine ⟨_, (JSObject.mem_entries _ _).2 hmem, ?_⟩
      obtain ⟨Z, _, hZ, hiZ⟩ := key_groupByYear data _ hmem
      rw [hiZ]
      exact (yearKey_inj_of_range hq.2.1 hq.2.2.1 hZ.symm)

/-- C5, as stated, fails: records of 2023 then 2021 give the row of 2021
first. -/
theorem years_not_in_input_order :
    (processSalaryData
        [⟨some "2023", "100000", "ML Engineer"⟩, ⟨some "2021", "200000", "ML Engineer"⟩]).map
      (fun s => s.year) = ["2021", "2023"] := by
  decide!


/-! ## The format of `toFixed(2)` -/

theorem isDecimalDigit_digitChar (d : Nat) (h : d < 10) :
    isDecimalDigit (Nat.digitChar d) = true := by
  unfold isDecimalDigit
  rw [digitValue?_digitChar d h]
  rfl

theorem toDigitsCore_digits (fuel : Nat) : ∀ (n : Nat) (ds : List Char),
    (∀ c ∈ ds, isDecimalDigit c = true) →
      ∀ c ∈ Nat.toDigitsCore 10 fuel n ds, isDecimalDigit c = true := by
  induction fuel with
  | zero => intro n ds h; exact h
  | succ fuel ih =>
    intro n ds h
    unfold Nat.toDigitsCore
    simp only
    have hd : ∀ c ∈ Nat.digitChar (n % 10) :: ds, isDecimalDigit c = true := by
      intro c hc
      rcases List.mem_cons.1 hc with hc | hc
      · rw [hc]; exact isDecimalDigit_digitChar _ (Nat.mod_lt _ (by decide))
      · exact h c hc
    split
    · exact hd
    · exact ih _ _ hd

theorem toDigitsCore_length_ge (fuel : Nat) : ∀ (n : Nat) (ds : List Char),
    ds.length ≤ (Nat.toDigitsCore 10 fuel n ds).length := by
  induction fuel with
  | zero => intro n ds; exact le_refl _
  | succ fuel ih =>
    intro n ds
    unfold Nat.toDigitsCore
    simp only
    split
    · simp
    · exact le_trans (by simp) (ih _ _)

theorem decimalDigits_digits (n : Nat) :
    ∀ c ∈ JSNumber.decimalDigits n, isDecimalDigit c = true :=
  toDigitsCore_digits _ _ _ (by simp)

theorem decimalDigits_length_pos (n : Nat) : 0 < (JSNumber.decimalDigits n).length := by
  unfold JSNumber.decimalDigits Nat.toDigits Nat.toDigitsCore
  simp only
  split
  · simp
  · exact lt_of_lt_of_le (by simp) (toDigitsCore_length_ge _ _ _)

theorem takeWhile_digits_append (A B : List Char) (c : Char)
    (hA : ∀ a ∈ A, isDecimalDigit a = true) (hc : isDecimalDigit c = false) :
    (A ++ c :: B).takeWhile isDecimalDigit = A ∧
      (A ++ c :: B).dropWhile isDecimalDigit = c :: B := by
  induction A with
  | nil => simp [List.takeWhile, List.dropWhile, hc]
  | cons a A ih =>
    have ha := hA a (List.mem_cons_self _ _)
    have := ih (fun x hx => hA x (List.mem_cons_of_mem _ hx))
    simp [List.takeWhile, List.dropWhile, ha, this.1, this.2]

theorem isFixed2_of_parts (sign A B : List Char) (hs : sign = [] ∨ sign = ['-'])
    (hA : ∀ a ∈ A, isDecimalDigit a = true) (hne : A ≠ [])
    (hB : ∀ b ∈ B, isDecimalDigit b = true) (hlen : B.length = 2) :
    isFixed2 (String.mk (sign ++ A ++ ['.'] ++ B)) = true := by
  obtain ⟨x, B1, rfl⟩ := List.exists_cons_of_ne_nil (l := B) (by intro h; rw [h] at hlen; cases hlen)
  obtain ⟨y, B2, rfl⟩ := List.exists_cons_of_ne_nil (l := B1)
    (by intro h; rw [h] at hlen; cases hlen)
  have hB2 : B2 = [] := List.eq_nil_of_length_eq_zero (by simpa using hlen)
  subst hB2
  have hx := hB x (by simp)
  have hy := hB y (by simp)
  obtain ⟨a, A1, rfl⟩ := List.exists_cons_of_ne_nil hne
  have ha := hA a (List.mem_cons_self _ _)
  have hdash : a ≠ '-' := by
    intro h
    rw [h] at ha
    exact absurd ha (by decide)
  have hpt : isDecimalDigit '.' = false := by decide
  have key := takeWhile_digits_append (a :: A1) [x, y] '.' hA hpt
  have hbody : (isFixed2 (String.mk ((a :: A1) ++ '.' :: [x, y]))) = true := by
    unfold isFixed2
    have hm : (match (String.mk ((a :: A1) ++ '.' :: [x, y])).data with
        | '-' :: t => t
        | t => t) = (a :: A1) ++ '.' :: [x, y] := by
      show (match (a :: (A1 ++ '.' :: [x, y])) with
        | '-' :: t => t
        | t => t) = _
      split
      · rename_i t heq
        exact absurd (List.cons.inj heq).1 hdash
      · rfl
    simp only [hm, key.1, key.2, hx, hy]
    rfl
  rcases hs with hs | hs
  · subst hs
    simpa using hbody
  · subst hs
    unfold isFixed2
    have hm : (match (String.mk (['-'] ++ (a :: A1) ++ ['.'] ++ [x, y])).data with
        | '-' :: t => t
        | t => t) = (a :: A1) ++ '.' :: [x, y] := by
      simp
    simp only [hm, key.1, key.2, hx, hy]
    rfl

theorem isFixed2_toFixed (v : JSNumber) (h : v.isFiniteBelow1e21 = true) :
    isFixed2 (v.toFixed 2) = true := by
  cases v with
  | nan => cases h
  | inf neg => cases h
  | fin neg mant exp =>
    have hlt : JSNumber.scaledLe mant (10 ^ 21) (-exp) = false := by
      simpa [JSNumber.isFiniteBelow1e21] using h
    unfold JSNumber.toFixed
    simp only [hlt, Bool.false_eq_true, if_false, (by decide : (2 : Nat) ≠ 0)]
    generalize hn : JSNumber.decimalDigits _ = md
    have hmd : ∀ c ∈ md, isDecimalDigit c = true := by
      rw [← hn]; exact decimalDigits_digits _
    have hpos : 0 < md.length := by
      rw [← hn]; exact decimalDigits_length_pos _
    set m := List.replicate (2 + 1 - md.length) '0' ++ md with hm
    have hmdig : ∀ c ∈ m, isDecimalDigit c = true := by
      intro c hc
      rcases List.mem_append.1 hc with hc | hc
      · rw [(List.mem_replicate.1 hc).2]; decide
      · exact hmd c hc
    have hmlen : 3 ≤ m.length := by
      rw [hm, List.length_append, List.length_replicate]
      omega
    apply isFixed2_of_parts
    · by_cases hneg : neg = true ∧ mant ≠ 0
      · right; rw [if_pos hneg]
      · left; rw [if_neg hneg]
    · intro a ha
      exact hmdig a (List.mem_of_mem_take ha)
    · intro h0
      have := congrArg List.length h0
      rw [List.length_take] at this
      simp at this
      omega
    · intro b hb
      exact hmdig b (List.mem_of_mem_drop hb)
    · rw [List.length_drop]
      omega


/-- C3, as the code has it: the `averageSalary` of the row of year `Y` is the
Number sum of the salaries of the qualifying records of `Y`, divided by their
number and printed by `toFixed(2)`; that is a decimal numeral with exactly two
fractional digits whenever the quotient is finite and below `10^21` in
magnitude. -/
theorem averageSalary_eq (data : List RawRecord) (s : YearSummary) (Y : Int)
    (hs : s ∈ processSalaryData data) (hY : s.year = yearKey Y) :
    s.averageSalary =
        ((salarySum (data.filter (qualifiesFor Y))).divNat
          (data.filter (qualifiesFor Y)).length).toFixed 2 ∧
      (((salarySum (data.filter (qualifiesFor Y))).divNat
          (data.filter (qualifiesFor Y)).length).isFiniteBelow1e21 = true →
        isFixed2 s.averageSalary = true) := by
  obtain ⟨Z, ⟨r, _, hq⟩, rfl⟩ := (mem_processSalaryData_iff data s).1 hs
  have : Y = Z := yearKey_inj_of_range hq.2.1 hq.2.2.1 hY.symm
  subst this
  refine ⟨rfl, fun h => ?_⟩
  exact isFixed2_toFixed _ h

theorem averageSalary_eq_witness :
    (⟨"2021", 2, "150000.00"⟩ : YearSummary) ∈ processSalaryData exampleRows ∧
      (⟨"2021", 2, "150000.00"⟩ : YearSummary).year = yearKey 2021 ∧
      ("150000.00" =
        ((salarySum (exampleRows.filter (qualifiesFor 2021))).divNat
          (exampleRows.filter (qualifiesFor 2021)).length).toFixed 2 ∧
      (((salarySum (exampleRows.filter (qualifiesFor 2021))).divNat
          (exampleRows.filter (qualifiesFor 2021)).length).isFiniteBelow1e21 = true →
        isFixed2 "150000.00" = true)) :=
  ⟨by decide!, by decide,
    averageSalary_eq exampleRows ⟨"2021", 2, "150000.00"⟩ 2021 (by decide!) (by decide)⟩

/-- C3, as stated, fails: the salary `"Infinity"` parses, and the average of
the year is then printed as `"Infinity"`, which has no fractional digits. -/
theorem averageSalary_not_always_fixed :
    processSalaryData [⟨some "2021", "Infinity", "ML Engineer"⟩] =
        [⟨"2021", 1, "Infinity"⟩] ∧
      qualifiesFor 2021 ⟨some "2021", "Infinity", "ML Engineer"⟩ ∧
      isFixed2 "Infinity" = false := by
  decide!


/-! ## Properties of `sortTable` -/

/-- C6: `sortTable(k)` stores the key `k`; the stored direction is the
previous one flipped when `k` is the previous key, so that a second sort by
the same key toggles back, and it is ascending when `k` is another key. -/
theorem sortTable_config (st : AppState) (k : SortKey) :
    (sortTable st k).sortConfig.key = some k ∧
      (st.sortConfig.key = some k →
        (sortTable st k).sortConfig.direction = st.sortConfig.direction.flip) ∧
      (st.sortConfig.key ≠ some k →
        (sortTable st k).sortConfig.direction = Direction.ascending) ∧
      (sortTable (sortTable st k) k).sortConfig.direction =
        (sortTable st k).sortConfig.direction.flip := by
  have h1 : ∀ c : SortConfig, c.key = some k →
      nextDirection c k = c.direction.flip := by
    intro c hc
    unfold nextDirection
    cases hd : c.direction <;> simp [hc, Direction.flip]
  refine ⟨rfl, fun h => h1 _ h, fun h => ?_, h1 _ rfl⟩
  show nextDirection st.sortConfig k = Direction.ascending
  unfold nextDirection
  rw [if_neg (fun hc => h hc.1)]


theorem singleton_lt_iff (a b : Nat) : ([a] : List Nat) < [b] ↔ a < b := by
  constructor
  · intro h
    cases h with
    | cons h => cases h
    | rel h => exact h
  · intro h
    exact List.Lex.rel h

theorem keyLt_iff (key : SortKey) (a b : YearSummary) :
    keyLt key a b = true ↔ sortValue key a < sortValue key b := by
  cases key <;> simp [keyLt, sortValue, strLt, singleton_lt_iff]

theorem rowsOrdered_iff (key : SortKey) (direction : Direction) (a b : YearSummary) :
    rowsOrdered key direction a b ↔
      match direction with
      | .ascending => sortValue key a ≤ sortValue key b
      | .descending => sortValue key b ≤ sortValue key a := by
  unfold rowsOrdered compareRows
  by_cases h1 : keyLt key a b = true
  · have h1v := (keyLt_iff key a b).1 h1
    cases direction
    · simp [h1, le_of_lt h1v]
    · simp [h1, not_le.2 h1v]
  · have h1v : ¬ sortValue key a < sortValue key b := fun h => h1 ((keyLt_iff key a b).2 h)
    by_cases h2 : keyLt key b a = true
    · have h2v := (keyLt_iff key b a).1 h2
      cases direction
      · simp [h1, h2, not_le.2 h2v]
      · simp [h1, h2, le_of_lt h2v]
    · have h2v : ¬ sortValue key b < sortValue key a :=
        fun h => h2 ((keyLt_iff key b a).2 h)
      cases direction
      · simp [h1, h2, not_lt.1 h2v]
      · simp [h1, h2, not_lt.1 h1v]

instance rowsOrdered_total (key : SortKey) (direction : Direction) :
    IsTotal YearSummary (rowsOrdered key direction) := by
  constructor
  intro a b
  rw [rowsOrdered_iff, rowsOrdered_iff]
  cases direction
  · exact le_total _ _
  · exact le_total _ _

instance rowsOrdered_trans (key : SortKey) (direction : Direction) :
    IsTrans YearSummary (rowsOrdered key direction) := by
  constructor
  intro a b c hab hbc
  rw [rowsOrdered_iff] at hab hbc ⊢
  cases direction
  · exact le_trans hab hbc
  · exact le_trans hbc hab

theorem sorted_sortRows (key : SortKey) (direction : Direction) (rows : List YearSummary) :
    (sortRows key direction rows).Sorted (rowsOrdered key direction) :=
  List.sorted_insertionSort _ _

theorem perm_sortRows (key : SortKey) (direction : Direction) (rows : List YearSummary) :
    (sortRows key direction rows).Perm rows :=
  List.perm_insertionSort _ _

theorem sortValue_le_iff (key : SortKey) (a b : YearSummary)
    (ha : a.year ∈ validYearKeys) (hb : b.year ∈ validYearKeys) :
    sortValue key a ≤ sortValue key b ↔ keyLe key a b := by
  cases key with
  | year =>
    simp only [sortValue, keyLe, yearNumber]
    have ha2 : a.year = "2020" ∨ a.year = "2021" ∨ a.year = "2022" ∨ a.year = "2023" ∨
        a.year = "2024" := by simpa [validYearKeys, yearKey] using ha
    have hb2 : b.year = "2020" ∨ b.year = "2021" ∨ b.year = "2022" ∨ b.year = "2023" ∨
        b.year = "2024" := by simpa [validYearKeys, yearKey] using hb
    rcases ha2 with h | h | h | h | h <;> rcases hb2 with h' | h' | h' | h' | h' <;>
      rw [h, h'] <;> decide
  | totalJobs =>
    simp only [sortValue, keyLe]
    rw [← not_lt, singleton_lt_iff, not_lt]
  | averageSalary =>
    simp only [sortValue, keyLe, strLt]
    rw [← not_lt]
    simp

theorem year_mem_validYearKeys (data : List RawRecord) (s : YearSummary)
    (hs : s ∈ processSalaryData data) : s.year ∈ validYearKeys := by
  obtain ⟨Z, ⟨r, _, hq⟩, rfl⟩ := (mem_processSalaryData_iff data s).1 hs
  have h1 := hq.2.1
  have h2 := hq.2.2.1
  have : Z = 2020 ∨ Z = 2021 ∨ Z = 2022 ∨ Z = 2023 ∨ Z = 2024 := by omega
  rcases this with h | h | h | h | h <;> subst h <;> simp [validYearKeys, expectedSummary]

/-- C7: `sortTable` replaces the table by a permutation of its rows that is
ordered by the requested column, non-decreasing when the stored direction is
ascending and non-increasing when it is descending; `year` (the numeral of a
year from 2020 to 2024, as `processSalaryData` emits it) and `totalJobs` are
ordered by numeric value and `averageSalary` as a string, for which
`"100000.00" < "20000.00"`. -/
theorem sortTable_sorted_perm (st : AppState) (key : SortKey)
    (hyear : ∀ r ∈ st.tableData, r.year ∈ validYearKeys) :
    (sortTable st key).tableData.Perm st.tableData ∧
      (sortTable st key).tableData.Pairwise
        (inDirection key (sortTable st key).sortConfig.direction) ∧
      strLt "100000.00" "20000.00" = true := by
  refine ⟨perm_sortRows _ _ _, ?_, by decide⟩
  have hs := sorted_sortRows key (nextDirection st.sortConfig key) st.tableData
  have hmem : ∀ r ∈ sortRows key (nextDirection st.sortConfig key) st.tableData,
      r.year ∈ validYearKeys :=
    fun r hr => hyear r ((perm_sortRows _ _ _).mem_iff.1 hr)
  show List.Pairwise (inDirection key (nextDirection st.sortConfig key))
    (sortRows key (nextDirection st.sortConfig key) st.tableData)
  refine List.Pairwise.imp_of_mem ?_ hs
  intro a b ha hb hab
  rw [rowsOrdered_iff] at hab
  unfold inDirection
  cases hd : nextDirection st.sortConfig key
  · rw [hd] at hab
    exact (sortValue_le_iff key a b (hmem a ha) (hmem b hb)).1 hab
  · rw [hd] at hab
    exact (sortValue_le_iff key b a (hmem b hb) (hmem a ha)).1 hab

theorem sortTable_sorted_perm_witness :
    (∀ r ∈ twoRowState.tableData, r.year ∈ validYearKeys) ∧
      (sortTable twoRowState .averageSalary).tableData =
        [⟨"2021", 5, "100000.00"⟩, ⟨"2020", 1, "20000.00"⟩] ∧
      ((sortTable twoRowState .averageSalary).tableData.Perm twoRowState.tableData ∧
        (sortTable twoRowState .averageSalary).tableData.Pairwise
          (inDirection .averageSalary
            (sortTable twoRowState .averageSalary).sortConfig.direction) ∧
        strLt "100000.00" "20000.00" = true) :=
  ⟨by decide, by decide, sortTable_sorted_perm twoRowState .averageSalary (by decide)⟩


/-! ## Order of `Object.entries` -/

namespace JSObject

variable {α : Type}

instance indexLe_total : IsTotal (String × α) (fun p q => indexOf p ≤ indexOf q) :=
  ⟨fun _ _ => le_total _ _⟩

instance indexLe_trans : IsTrans (String × α) (fun p q => indexOf p ≤ indexOf q) :=
  ⟨fun _ _ _ hab hbc => le_trans hab hbc⟩

theorem arrayIndexValue_injOn {a b : String} (ha : isArrayIndex a = true)
    (hb : isArrayIndex b = true) (h : arrayIndexValue a = arrayIndexValue b) : a = b := by
  unfold isArrayIndex at ha hb
  unfold arrayIndexValue at h
  obtain ⟨n, hn⟩ := Option.isSome_iff_exists.1 ha
  obtain ⟨m, hm⟩ := Option.isSome_iff_exists.1 hb
  rw [hn, hm] at h
  simp only [Option.getD_some] at h
  rw [← (arrayIndex?_eq_some hn).1, ← (arrayIndex?_eq_some hm).1, h]

/-- The keys of `Object.entries(o)`: first the array indices among the keys,
in ascending numeric order, then the other keys in order of creation. -/
theorem keys_entries (o : JSObject α) (hnd : o.keys.Nodup) :
    ∃ idx : List String,
      o.entries.map Prod.fst = idx ++ o.keys.filter (fun k => !isArrayIndex k) ∧
      (∀ t, t ∈ idx ↔ t ∈ o.keys ∧ isArrayIndex t = true) ∧
      (idx.map arrayIndexValue).Sorted (· < ·) := by
  refine ⟨((o.props.filter fun p => (arrayIndex? p.1).isSome).insertionSort
      (fun p q => indexOf p ≤ indexOf q)).map Prod.fst, ?_, ?_, ?_⟩
  · unfold entries keys
    rw [List.map_append, List.filter_map]
    congr 2
    apply List.filter_congr
    intro p _
    simp only [isArrayIndex, Function.comp]
    cases arrayIndex? p.1 <;> rfl
  · intro t
    rw [List.mem_map]
    constructor
    · rintro ⟨p, hp, rfl⟩
      rw [(List.perm_insertionSort _ _).mem_iff, List.mem_filter] at hp
      exact ⟨List.mem_map.2 ⟨p, hp.1, rfl⟩, hp.2⟩
    · rintro ⟨ht, hi⟩
      obtain ⟨p, hp, rfl⟩ := List.mem_map.1 ht
      exact ⟨p, (List.perm_insertionSort _ _).mem_iff.2 (List.mem_filter.2 ⟨hp, hi⟩), rfl⟩
  · have hs := List.sorted_insertionSort (fun p q : String × α => indexOf p ≤ indexOf q)
      (o.props.filter fun p => (arrayIndex? p.1).isSome)
    have hperm := List.perm_insertionSort (fun p q : String × α => indexOf p ≤ indexOf q)
      (o.props.filter fun p => (arrayIndex? p.1).isSome)
    rw [List.map_map]
    have hle : (List.map (arrayIndexValue ∘ Prod.fst)
        ((o.props.filter fun p => (arrayIndex? p.1).isSome).insertionSort
          (fun p q => indexOf p ≤ indexOf q))).Sorted (· ≤ ·) := by
      rw [List.Sorted, List.pairwise_map]
      exact hs
    refine hle.lt_of_le ?_
    have hk : (List.map Prod.fst
        ((o.props.filter fun p => (arrayIndex? p.1).isSome).insertionSort
          (fun p q => indexOf p ≤ indexOf q))).Nodup := by
      rw [(hperm.map Prod.fst).nodup_iff]
      exact (List.Nodup.sublist ((List.filter_sublist _).map Prod.fst) hnd)
    rw [← List.map_map]
    refine List.Nodup.map_on ?_ hk
    intro a ha b hb hab
    obtain ⟨p, hp, rfl⟩ := List.mem_map.1 ha
    obtain ⟨q, hq, rfl⟩ := List.mem_map.1 hb
    rw [hperm.mem_iff, List.mem_filter] at hp hq
    exact arrayIndexValue_injOn hp.2 hq.2 hab

end JSObject


/-! ## The reducer of `handleRowClick` -/

theorem countStep_proto (acc : JSObject JSValue) (row : RawRecord)
    (h : row.job_title = "__proto__") : countStep acc row = acc := by
  unfold countStep setProp
  simp [h]

theorem keys_countStep (acc : JSObject JSValue) (row : RawRecord)
    (h : row.job_title ≠ "__proto__") :
    (countStep acc row).keys =
      if row.job_title ∈ acc.keys then acc.keys else acc.keys ++ [row.job_title] := by
  unfold countStep setProp
  simp only [if_neg h]
  by_cases ht : truthy (getProp acc row.job_title) = true
  · simp only [ht, Bool.not_true, Bool.false_eq_true, if_false]
    rw [JSObject.keys_setOwn]
    simp only [JSObject.hasOwn_iff_mem_keys]
  · simp only [ht, Bool.not_false, if_true]
    rw [JSObject.keys_setOwn, JSObject.keys_setOwn]
    by_cases hk : row.job_title ∈ acc.keys
    · have hh := (JSObject.hasOwn_iff_mem_keys acc row.job_title).2 hk
      simp [hh, hk, JSObject.hasOwn_iff_mem_keys, JSObject.keys_setOwn]
    · have hh : acc.hasOwn row.job_title = false := by
        cases hc : acc.hasOwn row.job_title
        · rfl
        · exact absurd ((JSObject.hasOwn_iff_mem_keys acc row.job_title).1 hc) hk
      simp [hh, hk, JSObject.hasOwn_iff_mem_keys, JSObject.keys_setOwn]

theorem firstOccurrences_cons (a : String) (l : List String) :
    firstOccurrences (a :: l) = a :: (firstOccurrences l).filter fun b => b ≠ a := rfl

theorem filter_firstOccurrences (p : String → Bool) (l : List String) :
    (firstOccurrences l).filter p = firstOccurrences (l.filter p) := by
  induction l with
  | nil => rfl
  | cons a l ih =>
    rw [firstOccurrences_cons]
    by_cases hp : p a = true
    · rw [List.filter_cons_of_pos hp, List.filter_cons_of_pos hp, firstOccurrences_cons,
        List.filter_filter, ← ih, List.filter_filter]
      congr 1
      apply List.filter_congr
      intro x _
      exact Bool.and_comm _ _
    · rw [List.filter_cons_of_neg hp, List.filter_cons_of_neg hp, List.filter_filter, ← ih]
      apply List.filter_congr
      intro x _
      by_cases hx : x = a
      · rw [hx]; simp [hp]
      · simp [hx]

theorem keys_foldl_countStep (rows : List RawRecord) (acc : JSObject JSValue) :
    (rows.foldl countStep acc).keys =
      acc.keys ++ (firstOccurrences ((rows.map fun r => r.job_title).filter
        fun t => t ≠ "__proto__")).filter fun t => t ∉ acc.keys := by
  induction rows generalizing acc with
  | nil => simp [firstOccurrences]
  | cons r rows ih =>
    rw [List.foldl_cons, ih]
    by_cases hp : r.job_title = "__proto__"
    · rw [countStep_proto acc r hp, List.map_cons,
        List.filter_cons_of_neg (by simpa using hp)]
    · rw [keys_countStep acc r hp, List.map_cons, List.filter_cons_of_pos (by simpa using hp),
        firstOccurrences_cons]
      by_cases hk : r.job_title ∈ acc.keys
      · rw [if_pos hk, List.filter_cons_of_neg (by simpa using hk), List.filter_filter]
        congr 1
        apply List.filter_congr
        intro x _
        by_cases hx : x = r.job_title
        · rw [hx]; simp [hk]
        · simp [hx]
      · rw [if_neg hk, List.filter_cons_of_pos (by simpa using hk), List.filter_filter,
          List.append_assoc]
        congr 1
        show r.job_title :: _ = r.job_title :: _
        congr 1
        apply List.filter_congr
        intro x _
        by_cases hx : x = r.job_title
        · rw [hx]; simp
        · simp [hx, List.mem_append]

theorem nodup_firstOccurrences (l : List String) : (firstOccurrences l).Nodup := by
  induction l with
  | nil => exact List.nodup_nil
  | cons a l ih =>
    rw [firstOccurrences_cons, List.nodup_cons]
    exact ⟨by simp [List.mem_filter], ih.filter _⟩

theorem mem_firstOccurrences (l : List String) (t : String) :
    t ∈ firstOccurrences l ↔ t ∈ l := by
  induction l with
  | nil => simp [firstOccurrences]
  | cons a l ih =>
    rw [firstOccurrences_cons]
    by_cases h : t = a
    · simp [h]
    · simp [h, List.mem_filter, ih]

/-- The keys of the job-title accumulator, in order of creation. -/
theorem keys_jobTitleGrouped (salaryData : List RawRecord) (year : String) :
    ((salaryData.filter fun row => row.work_year = some year).foldl countStep
        JSObject.empty).keys =
      firstOccurrences ((selectedTitles salaryData year).filter fun t => t ≠ "__proto__") := by
  rw [keys_foldl_countStep]
  simp [JSObject.keys, JSObject.empty, selectedTitles]

/-- C9, as the code has it: the job titles that are array indices (canonical
numerals below `2^32 - 1`) come first, in ascending numeric order, and the
other titles follow in the order of their first occurrence among the records
of the selected year; stated for records none of which has the title
`"__proto__"`. -/
theorem jobTitles_order (salaryData : List RawRecord) (year : String)
    (hproto : "__proto__" ∉ selectedTitles salaryData year) :
    ∃ idx : List String,
      (jobTitleCounts salaryData year).map (fun c => c.jobTitle) =
        idx ++ firstOccurrences
          ((selectedTitles salaryData year).filter fun t => !isArrayIndex t) ∧
      (∀ t, t ∈ idx ↔ t ∈ selectedTitles salaryData year ∧ isArrayIndex t = true) ∧
      (idx.map arrayIndexValue).Sorted (· < ·) := by
  have hall : (selectedTitles salaryData year).filter (fun t => t ≠ "__proto__") =
      selectedTitles salaryData year := by
    apply List.filter_eq_self.2
    intro t ht
    have : t ≠ "__proto__" := fun h => hproto (h ▸ ht)
    simpa using this
  have hkeys := keys_jobTitleGrouped salaryData year
  rw [hall] at hkeys
  have hnd : ((salaryData.filter fun row => row.work_year = some year).foldl countStep
      JSObject.empty).keys.Nodup := by
    rw [hkeys]; exact nodup_firstOccurrences _
  obtain ⟨idx, h1, h2, h3⟩ := JSObject.keys_entries _ hnd
  refine ⟨idx, ?_, ?_, h3⟩
  · unfold jobTitleCounts
    simp only [List.map_map]
    rw [← filter_firstOccurrences, ← hkeys, ← h1]
    rfl
  · intro t
    rw [h2 t, hkeys, mem_firstOccurrences]

theorem jobTitles_order_witness :
    "__proto__" ∉ selectedTitles exampleRows "2021" ∧
      (jobTitleCounts exampleRows "2021").map (fun c => c.jobTitle) =
        ["ML Engineer", "Data Scientist"] ∧
      ∃ idx : List String,
        (jobTitleCounts exampleRows "2021").map (fun c => c.jobTitle) =
          idx ++ firstOccurrences
            ((selectedTitles exampleRows "2021").filter fun t => !isArrayIndex t) ∧
        (∀ t, t ∈ idx ↔ t ∈ selectedTitles exampleRows "2021" ∧ isArrayIndex t = true) ∧
        (idx.map arrayIndexValue).Sorted (· < ·) :=
  ⟨by decide, by decide!, jobTitles_order exampleRows "2021" (by decide)⟩

/-- C9, as stated, fails: the titles `"7"` and `"3"`, first seen in this order,
are listed as `"3"` then `"7"`. -/
theorem jobTitles_not_in_input_order :
    (jobTitleCounts [⟨some "2021", "100000", "7"⟩, ⟨some "2021", "100000", "3"⟩] "2021").map
      (fun c => c.jobTitle) = ["3", "7"] := by
  decide!


/-! ## Counts of `handleRowClick` -/

/-- C8 fails on the code: for a job titled `constructor` the read
`acc[jobTitle]` finds the inherited `Object.prototype.constructor`, the count
is never initialised and `+= 1` builds a string; for a job titled `__proto__`
no entry is produced at all. -/
theorem inherited_title_miscounted :
    (handleRowClick (loadComplete initialState inheritedTitleRows) "2021").jobTitleData =
        [⟨"constructor", .str "function Object() \x7b [native code] \x7d1"⟩] ∧
      (handleRowClick (loadComplete initialState protoTitleRows) "2021").jobTitleData = [] := by
  decide!

theorem lookup_eq_none_of_not_mem (l : List (String × String)) (t : String)
    (h : t ∉ l.map Prod.fst) : l.lookup t = none := by
  induction l with
  | nil => rfl
  | cons p l ih =>
    obtain ⟨a, b⟩ := p
    simp only [List.map_cons, List.mem_cons, not_or] at h
    have hne : (t == a) = false := by simpa using h.1
    simp [List.lookup, hne, ih h.2]

theorem getProp_of_not_inherited (acc : JSObject JSValue) (t : String)
    (h : t ∉ inheritedNames) : getProp acc t = acc.getOwn? t := by
  unfold getProp
  cases acc.getOwn? t with
  | some v => rfl
  | none =>
    simp only [inheritedNames, List.mem_cons, not_or] at h
    simp [h.1, lookup_eq_none_of_not_mem _ _ h.2]

theorem countStep_of_not_inherited (acc : JSObject JSValue) (row : RawRecord)
    (h : row.job_title ∉ inheritedNames) (hinv : CountsOnly acc) :
    countStep acc row =
        acc.setOwn row.job_title (.num (numberOf (acc.getOwn? row.job_title) + 1)) ∨
      countStep acc row =
        (acc.setOwn row.job_title (.num 0)).setOwn row.job_title
          (.num (numberOf (acc.getOwn? row.job_title) + 1)) := by
  have hp : row.job_title ≠ "__proto__" := fun hp => h (by rw [hp]; simp [inheritedNames])
  unfold countStep setProp
  simp only [if_neg hp, getProp_of_not_inherited acc _ h]
  cases hg : acc.getOwn? row.job_title with
  | none =>
    right
    simp only [truthy, Bool.not_false, if_true]
    have : getProp (acc.setOwn row.job_title (.num 0)) row.job_title = some (.num 0) := by
      rw [getProp_of_not_inherited _ _ h, JSObject.getOwn?_setOwn, if_pos rfl]
    rw [this]
    rfl
  | some v =>
    left
    obtain ⟨n, rfl⟩ := hinv _ _ hg
    simp [truthy, getProp_of_not_inherited acc _ h, hg, addOne, numberOf]

theorem getOwn?_countStep (acc : JSObject JSValue) (row : RawRecord)
    (h : row.job_title ∉ inheritedNames) (hinv : CountsOnly acc) (k : String) :
    (countStep acc row).getOwn? k =
      if k = row.job_title then some (.num (numberOf (acc.getOwn? row.job_title) + 1))
      else acc.getOwn? k := by
  rcases countStep_of_not_inherited acc row h hinv with h1 | h1
  · rw [h1, JSObject.getOwn?_setOwn]
  · rw [h1, JSObject.getOwn?_setOwn, JSObject.getOwn?_setOwn]
    by_cases hk : k = row.job_title <;> simp [hk]

theorem countsOnly_countStep (acc : JSObject JSValue) (row : RawRecord)
    (h : row.job_title ∉ inheritedNames) (hinv : CountsOnly acc) :
    CountsOnly (countStep acc row) := by
  intro k v hkv
  rw [getOwn?_countStep acc row h hinv] at hkv
  split at hkv
  · exact ⟨_, (Option.some.inj hkv).symm⟩
  · exact hinv k v hkv

theorem numberOf_num (n : Nat) : numberOf (some (.num n)) = n := rfl

theorem getOwn?_foldl_countStep (rows : List RawRecord) (acc : JSObject JSValue)
    (h : ∀ r ∈ rows, r.job_title ∉ inheritedNames) (hinv : CountsOnly acc) (k : String) :
    (rows.foldl countStep acc).getOwn? k =
      if (rows.map fun r => r.job_title).count k = 0 then acc.getOwn? k
      else some (.num (numberOf (acc.getOwn? k) + (rows.map fun r => r.job_title).count k)) := by
  induction rows generalizing acc with
  | nil => simp
  | cons r rows ih =>
    have hr := h r (List.mem_cons_self _ _)
    rw [List.foldl_cons, ih _ (fun x hx => h x (List.mem_cons_of_mem _ hx))
      (countsOnly_countStep acc r hr hinv), getOwn?_countStep acc r hr hinv, List.map_cons,
      List.count_cons]
    by_cases hk : k = r.job_title
    · subst hk
      simp only [if_true, beq_self_eq_true, numberOf_num]
      by_cases hc : List.count r.job_title (List.map (fun r => r.job_title) rows) = 0
      · simp [hc]
      · simp only [hc, if_false, Nat.add_eq_zero, one_ne_zero, and_false, Option.some.injEq,
          JSValue.num.injEq]
        omega
    · have hk2 : (r.job_title == k) = false := by
        simpa using fun h => hk h.symm
      simp only [if_neg hk, hk2, Bool.false_eq_true, if_false, Nat.add_zero]


theorem toNat_of_isDecimalDigit {c : Char} (h : isDecimalDigit c = true) :
    48 ≤ c.toNat ∧ c.toNat ≤ 57 := by
  unfold isDecimalDigit digitValue? at h
  simp only at h
  by_cases h1 : 48 ≤ c.toNat ∧ c.toNat ≤ 57
  · exact h1
  · rw [if_neg h1] at h
    by_cases h2 : 97 ≤ c.toNat ∧ c.toNat ≤ 122
    · rw [if_pos h2] at h
      have : ¬ (c.toNat - 87 < 10) := by omega
      simp [Option.filter, this] at h
    · rw [if_neg h2] at h
      by_cases h3 : 65 ≤ c.toNat ∧ c.toNat ≤ 90
      · rw [if_pos h3] at h
        have : ¬ (c.toNat - 55 < 10) := by omega
        simp [Option.filter, this] at h
      · rw [if_neg h3] at h
        simp [Option.filter] at h

theorem not_whiteSpace_of_isDecimalDigit {c : Char} (h : isDecimalDigit c = true) :
    isStrWhiteSpaceChar c = false := by
  have hb := toNat_of_isDecimalDigit h
  unfold isStrWhiteSpaceChar
  simp only [Bool.or_eq_false_iff, Bool.and_eq_false_iff, decide_eq_false_iff_not]
  omega

theorem takeWhile_eq_self_of_all {α : Type} (p : α → Bool) (l : List α)
    (h : ∀ a ∈ l, p a = true) : l.takeWhile p = l := by
  induction l with
  | nil => rfl
  | cons a l ih =>
    rw [List.takeWhile_cons, h a (List.mem_cons_self _ _)]
    simp only [if_true]
    rw [ih (fun x hx => h x (List.mem_cons_of_mem _ hx))]

theorem parseInt_repr (y : Nat) : parseInt (Nat.repr y) = some (y : Int) := by
  have hval := digitsValue_repr y
  have hdig : ∀ c ∈ (Nat.repr y).data, isDecimalDigit c = true := decimalDigits_digits y
  have hpos : 0 < (Nat.repr y).data.length := decimalDigits_length_pos y
  unfold parseInt
  generalize (Nat.repr y).data = ds at hval hdig hpos
  obtain ⟨c, cs, rfl⟩ := List.exists_cons_of_ne_nil (l := ds)
    (by intro h; rw [h] at hpos; cases hpos)
  have hc := hdig c (List.mem_cons_self _ _)
  have hb := toNat_of_isDecimalDigit hc
  have hdrop : (c :: cs).dropWhile isStrWhiteSpaceChar = c :: cs := by
    simp [List.dropWhile, not_whiteSpace_of_isDecimalDigit hc]
  have hsign : splitSign (c :: cs) = (false, c :: cs) := by
    unfold splitSign
    split
    · rename_i t heq
      rw [(List.cons.inj heq).1] at hb
      exact absurd hb (by decide)
    · rename_i t heq
      rw [(List.cons.inj heq).1] at hb
      exact absurd hb (by decide)
    · rfl
  simp only [hdrop, hsign]
  have hhex : (match c :: cs with
      | '0' :: 'x' :: t => ((16 : Nat), t)
      | '0' :: 'X' :: t => (16, t)
      | _ => (10, c :: cs)) = (10, c :: cs) := by
    split
    · rename_i t heq
      have hx : 'x' ∈ c :: cs := by rw [heq]; simp
      exact absurd (hdig _ hx) (by decide)
    · rename_i t heq
      have hx : 'X' ∈ c :: cs := by rw [heq]; simp
      exact absurd (hdig _ hx) (by decide)
    · rfl
  simp only [hhex]
  have htake : (c :: cs).takeWhile (fun c => (digitValue? 10 c).isSome) = c :: cs :=
    takeWhile_eq_self_of_all _ _ hdig
  rw [htake, hval]
  simp


theorem countsOnly_empty : CountsOnly JSObject.empty := by
  intro k v h
  simp [JSObject.getOwn?, JSObject.empty] at h

theorem not_inherited_ne_proto {t : String} (h : t ∉ inheritedNames) : t ≠ "__proto__" :=
  fun hp => h (by rw [hp]; simp [inheritedNames])

/-- Away from the inherited property names the counts are right: when no
record of the selected year has a job title that names a property of
`Object.prototype`, `handleRowClick` lists each distinct job title of the year
once, with the number of records of the year that have it. -/
theorem jobTitleCounts_of_no_inherited (salaryData : List RawRecord) (year : String)
    (h : ∀ t ∈ selectedTitles salaryData year, t ∉ inheritedNames) :
    ((jobTitleCounts salaryData year).map fun c => c.jobTitle).Nodup ∧
      ∀ c, c ∈ jobTitleCounts salaryData year ↔
        c.jobTitle ∈ selectedTitles salaryData year ∧
          c.count = .num ((selectedTitles salaryData year).count c.jobTitle) := by
  have hall : (selectedTitles salaryData year).filter (fun t => t ≠ "__proto__") =
      selectedTitles salaryData year := by
    apply List.filter_eq_self.2
    intro t ht
    simpa using not_inherited_ne_proto (h t ht)
  have hkeys := keys_jobTitleGrouped salaryData year
  rw [hall] at hkeys
  have hnd : ((salaryData.filter fun row => row.work_year = some year).foldl countStep
      JSObject.empty).keys.Nodup := by
    rw [hkeys]; exact nodup_firstOccurrences _
  have hrows : ∀ r ∈ salaryData.filter (fun row => row.work_year = some year),
      r.job_title ∉ inheritedNames :=
    fun r hr => h _ (List.mem_map.2 ⟨r, hr, rfl⟩)
  constructor
  · unfold jobTitleCounts
    simp only [List.map_map]
    exact (((JSObject.entries_perm _).map Prod.fst).nodup_iff).2 hnd
  · intro c
    unfold jobTitleCounts
    simp only [List.mem_map]
    have hget := getOwn?_foldl_countStep _ JSObject.empty hrows countsOnly_empty c.jobTitle
    have hnone : (JSObject.empty : JSObject JSValue).getOwn? c.jobTitle = none := rfl
    rw [hnone] at hget
    constructor
    · rintro ⟨⟨k, v⟩, he, rfl⟩
      rw [JSObject.mem_entries, ← JSObject.getOwn?_eq_some_iff _ hnd] at he
      simp only at hget he ⊢
      rw [he] at hget
      by_cases hc : List.count k (List.map (fun r => r.job_title)
          (salaryData.filter fun row => row.work_year = some year)) = 0
      · rw [if_pos hc] at hget; cases hget
      · rw [if_neg hc] at hget
        refine ⟨List.count_pos_iff.1 (Nat.pos_of_ne_zero hc), ?_⟩
        rw [Option.some.inj hget]
        simp [numberOf, selectedTitles]
    · rintro ⟨hmem, hcount⟩
      have hc : List.count c.jobTitle (List.map (fun r => r.job_title)
          (salaryData.filter fun row => row.work_year = some year)) ≠ 0 :=
        Nat.pos_iff_ne_zero.1 (List.count_pos_iff.2 hmem)
      rw [if_neg hc] at hget
      refine ⟨(c.jobTitle, c.count), ?_, rfl⟩
      rw [JSObject.mem_entries, ← JSObject.getOwn?_eq_some_iff _ hnd, hget, hcount]
      simp [numberOf, selectedTitles]

theorem countTotal_of_no_inherited (salaryData : List RawRecord) (year : String)
    (h : ∀ t ∈ selectedTitles salaryData year, t ∉ inheritedNames) :
    countTotal (jobTitleCounts salaryData year) = (selectedTitles salaryData year).length := by
  obtain ⟨hnd, hmem⟩ := jobTitleCounts_of_no_inherited salaryData year h
  have h1 : (jobTitleCounts salaryData year).map (fun c => numberOf (some c.count)) =
      ((jobTitleCounts salaryData year).map fun c => c.jobTitle).map
        fun t => (selectedTitles salaryData year).count t := by
    rw [List.map_map]
    apply List.map_congr_left
    intro c hc
    rw [((hmem c).1 hc).2]
    rfl
  have hperm : ((jobTitleCounts salaryData year).map fun c => c.jobTitle).Perm
      (selectedTitles salaryData year).dedup := by
    apply (List.perm_ext_iff_of_nodup hnd (List.nodup_dedup _)).2
    intro t
    rw [List.mem_dedup, List.mem_map]
    constructor
    · rintro ⟨c, hc, rfl⟩
      exact ((hmem c).1 hc).1
    · intro ht
      exact ⟨⟨t, .num ((selectedTitles salaryData year).count t)⟩, (hmem _).2 ⟨ht, rfl⟩, rfl⟩
  unfold countTotal
  rw [h1, (hperm.map _).sum_eq, List.sum_map_count_dedup_eq_length]

theorem qualifiesFor_iff_of_plain (r : RawRecord) (Z : Int) (h1 : 2020 ≤ Z) (h2 : Z ≤ 2024)
    (hwf : ∃ y : Nat, r.work_year = some (Nat.repr y) ∧
      (parseFloat r.salary_in_usd).isNaN = false) :
    qualifiesFor Z r ↔ r.work_year = some (yearKey Z) := by
  obtain ⟨y, hy, hsal⟩ := hwf
  have hws : workYearString r = Nat.repr y := by
    unfold workYearString
    rw [hy]
    rfl
  constructor
  · intro hq
    have := hq.1
    rw [hws, parseInt_repr] at this
    rw [hy, ← Option.some.inj this]
    rfl
  · intro hk
    refine ⟨?_, h1, h2, hsal⟩
    have hZ : Z = (Z.toNat : Int) := by omega
    unfold workYearString
    rw [hk, hZ]
    exact parseInt_repr _

/-- Away from the inherited property names the table and the drill-down
agree: when every `work_year` is a plain decimal numeral, every salary parses
and no job title names a property of `Object.prototype`, the counts that
`handleRowClick` produces for the year of a row of the table sum to the
`totalJobs` of that row. -/
theorem drilldown_agrees_of_no_inherited (data : List RawRecord)
    (hwf : ∀ r ∈ data, ∃ y : Nat, r.work_year = some (Nat.repr y) ∧
      (parseFloat r.salary_in_usd).isNaN = false)
    (hno : ∀ r ∈ data, r.job_title ∉ inheritedNames) (s : YearSummary)
    (hs : s ∈ processSalaryData data) :
    countTotal (handleRowClick (loadComplete initialState data) s.year).jobTitleData =
      s.totalJobs := by
  obtain ⟨Z, ⟨r, _, hq⟩, rfl⟩ := (mem_processSalaryData_iff data s).1 hs
  show countTotal (jobTitleCounts data (yearKey Z)) = (yearRecords data Z).length
  rw [countTotal_of_no_inherited]
  · unfold selectedTitles yearRecords
    rw [List.length_map]
    congr 1
    apply List.filter_congr
    intro x hx
    have := qualifiesFor_iff_of_plain x Z hq.2.1 hq.2.2.1 (hwf x hx)
    simp only [this, decide_eq_decide]
  · intro t ht
    obtain ⟨x, hx, rfl⟩ := List.mem_map.1 ht
    exact hno x (List.mem_filter.1 hx).1

/-- C10 fails on the code: the one record below has a plain decimal year and a
salary that parses, the table shows one job for 2021, and the drill-down of
that row is empty, because the title `__proto__` never becomes a property of
the accumulator. -/
theorem drilldown_disagrees_on_proto_title :
    protoTitleRows.all (fun r => r.work_year = some (Nat.repr 2021) &&
        !(parseFloat r.salary_in_usd).isNaN) = true ∧
      processSalaryData protoTitleRows = [⟨"2021", 1, "100000.00"⟩] ∧
      (handleRowClick (loadComplete initialState protoTitleRows) "2021").jobTitleData = [] ∧
      countTotal (handleRowClick (loadComplete initialState protoTitleRows) "2021").jobTitleData
        = 0 := by
  decide!

/-! ## What `parseInt` and `parseFloat` accept -/

theorem head?_dropWhile_not {α : Type} (p : α → Bool) (l : List α) :
    ∀ c, (l.dropWhile p).head? = some c → p c = false := by
  induction l with
  | nil => intro c h; cases h
  | cons a l ih =>
    intro c h
    rw [List.dropWhile_cons] at h
    by_cases ha : p a = true
    · rw [if_pos ha] at h
      exact ih c h
    · rw [if_neg ha] at h
      simp only [List.head?_cons, Option.some.injEq] at h
      rw [← h]
      simpa using ha

theorem takeWhile_dropWhile_append {α : Type} (p : α → Bool) (A B : List α)
    (hA : ∀ a ∈ A, p a = true) (hB : ∀ c, B.head? = some c → p c = false) :
    (A ++ B).takeWhile p = A ∧ (A ++ B).dropWhile p = B := by
  induction A with
  | nil =>
    cases B with
    | nil => simp
    | cons b B =>
      have hb := hB b rfl
      simp [List.takeWhile_cons, List.dropWhile_cons, hb]
  | cons a A ih =>
    have ha := hA a (List.mem_cons_self _ _)
    have := ih (fun x hx => hA x (List.mem_cons_of_mem _ hx))
    simp [List.takeWhile_cons, List.dropWhile_cons, ha, this.1, this.2]

theorem splitsAs_of_splitSign (text : List Char) (neg : Bool) (body : List Char)
    (h : splitSign (text.dropWhile isStrWhiteSpaceChar) = (neg, body)) :
    SplitsAs text neg body := by
  refine ⟨text.takeWhile isStrWhiteSpaceChar, fun c hc => (List.mem_takeWhile_imp hc), ?_⟩
  have hsplit := (List.takeWhile_append_dropWhile isStrWhiteSpaceChar text).symm
  generalize text.dropWhile isStrWhiteSpaceChar = t at h hsplit
  unfold splitSign at h
  split at h
  · rename_i t'
    cases h
    exact Or.inr (Or.inr ⟨hsplit, rfl⟩)
  · rename_i t'
    cases h
    exact Or.inr (Or.inl ⟨hsplit, rfl⟩)
  · cases h
    exact Or.inl ⟨hsplit, rfl⟩

theorem splitSign_of_splitsAs (text : List Char) (neg : Bool) (c : Char) (rest : List Char)
    (h : SplitsAs text neg (c :: rest)) (hws : isStrWhiteSpaceChar c = false)
    (hm : c ≠ '-') (hp : c ≠ '+') :
    splitSign (text.dropWhile isStrWhiteSpaceChar) = (neg, c :: rest) := by
  obtain ⟨ws, hall, h⟩ := h
  rcases h with ⟨h, hn⟩ | ⟨h, hn⟩ | ⟨h, hn⟩
  · rw [h, (takeWhile_dropWhile_append _ ws (c :: rest) hall
      (fun x hx => by cases hx; exact hws)).2, hn]
    unfold splitSign
    split
    · rename_i t heq
      exact absurd (List.cons.inj heq).1 hm
    · rename_i t heq
      exact absurd (List.cons.inj heq).1 hp
    · rfl
  · rw [h, (takeWhile_dropWhile_append _ ws ('+' :: c :: rest) hall
      (fun x hx => by cases hx; decide)).2, hn]
    rfl
  · rw [h, (takeWhile_dropWhile_append _ ws ('-' :: c :: rest) hall
      (fun x hx => by cases hx; decide)).2, hn]
    rfl

theorem toNat_of_hexDigit {c : Char} (h : (digitValue? 16 c).isSome = true) :
    (48 ≤ c.toNat ∧ c.toNat ≤ 57) ∨ (97 ≤ c.toNat ∧ c.toNat ≤ 102) ∨
      (65 ≤ c.toNat ∧ c.toNat ≤ 70) := by
  unfold digitValue? at h
  simp only at h
  by_cases h1 : 48 ≤ c.toNat ∧ c.toNat ≤ 57
  · exact Or.inl h1
  · rw [if_neg h1] at h
    by_cases h2 : 97 ≤ c.toNat ∧ c.toNat ≤ 122
    · rw [if_pos h2] at h
      right; left
      by_contra hc
      have : ¬ (c.toNat - 87 < 16) := by omega
      simp [Option.filter, this] at h
    · rw [if_neg h2] at h
      by_cases h3 : 65 ≤ c.toNat ∧ c.toNat ≤ 90
      · rw [if_pos h3] at h
        right; right
        by_contra hc
        have : ¬ (c.toNat - 55 < 16) := by omega
        simp [Option.filter, this] at h
      · rw [if_neg h3] at h
        simp [Option.filter] at h

theorem hexDigit_of_decimalDigit {c : Char} (h : (digitValue? 10 c).isSome = true) :
    48 ≤ c.toNat ∧ c.toNat ≤ 57 := toNat_of_isDecimalDigit h

/-- A character that can begin a numeral is neither white space nor a sign. -/
theorem start_of_toNat {c : Char}
    (h : (48 ≤ c.toNat ∧ c.toNat ≤ 57) ∨ c = '.' ∨ c = 'I') :
    isStrWhiteSpaceChar c = false ∧ c ≠ '-' ∧ c ≠ '+' := by
  rcases h with h | h | h
  · refine ⟨?_, ?_, ?_⟩
    · unfold isStrWhiteSpaceChar
      simp only [Bool.or_eq_false_iff, Bool.and_eq_false_iff, decide_eq_false_iff_not]
      omega
    · intro hc; rw [hc] at h; exact absurd h (by decide)
    · intro hc; rw [hc] at h; exact absurd h (by decide)
  · rw [h]; decide
  · rw [h]; decide


theorem parseInt_of_split (s : String) (neg : Bool) (body : List Char) (radix : Nat)
    (rest : List Char)
    (hr : (match body with
      | '0' :: 'x' :: t => ((16 : Nat), t)
      | '0' :: 'X' :: t => (16, t)
      | _ => (10, body)) = (radix, rest))
    (h : splitSign (s.data.dropWhile isStrWhiteSpaceChar) = (neg, body)) :
    parseInt s =
      if rest.takeWhile (fun c => (digitValue? radix c).isSome) = [] then none
      else if neg = true then
        some (-(digitsValue radix (rest.takeWhile fun c => (digitValue? radix c).isSome) : Int))
      else some (digitsValue radix (rest.takeWhile fun c => (digitValue? radix c).isSome) : Int) := by
  unfold parseInt
  simp only [h, hr]

theorem radix_cases (body : List Char) :
    (∃ h, (body = '0' :: 'x' :: h ∨ body = '0' :: 'X' :: h) ∧
      (match body with
        | '0' :: 'x' :: t => ((16 : Nat), t)
        | '0' :: 'X' :: t => (16, t)
        | _ => (10, body)) = (16, h)) ∨
    ((∀ h, body ≠ '0' :: 'x' :: h ∧ body ≠ '0' :: 'X' :: h) ∧
      (match body with
        | '0' :: 'x' :: t => ((16 : Nat), t)
        | '0' :: 'X' :: t => (16, t)
        | _ => (10, body)) = (10, body)) := by
  split
  · rename_i t
    exact Or.inl ⟨t, Or.inl rfl, rfl⟩
  · rename_i t
    exact Or.inl ⟨t, Or.inr rfl, rfl⟩
  · rename_i h1 h2
    exact Or.inr ⟨fun h => ⟨fun hb => h1 h hb, fun hb => h2 h hb⟩, rfl⟩

theorem beginsWithDigits_takeWhile (radix : Nat) (rest : List Char)
    (hz : rest.takeWhile (fun c => (digitValue? radix c).isSome) ≠ []) :
    BeginsWithDigits radix rest (rest.takeWhile fun c => (digitValue? radix c).isSome) :=
  ⟨hz, fun _ hc => List.mem_takeWhile_imp (p := fun c => (digitValue? radix c).isSome) hc, rest.dropWhile (fun c => (digitValue? radix c).isSome),
    (List.takeWhile_append_dropWhile _ rest).symm, head?_dropWhile_not _ rest⟩

theorem takeWhile_of_beginsWithDigits (radix : Nat) (rest ds : List Char)
    (h : BeginsWithDigits radix rest ds) :
    rest.takeWhile (fun c => (digitValue? radix c).isSome) = ds := by
  obtain ⟨_, hall, tail, rfl, htail⟩ := h
  exact (takeWhile_dropWhile_append _ ds tail hall htail).1

/-- `parseInt` returns `Y` exactly on the texts that have a leading integer
numeral of value `Y`. -/
theorem parseInt_eq_some_iff (s : String) (Y : Int) :
    parseInt s = some Y ↔ LeadingInteger s Y := by
  constructor
  · intro hp
    cases hs : splitSign (s.data.dropWhile isStrWhiteSpaceChar) with
    | mk neg body =>
      have hsplit := splitsAs_of_splitSign s.data neg body hs
      rcases radix_cases body with ⟨h, hb, hm⟩ | ⟨hb, hm⟩
      · rw [parseInt_of_split s neg body 16 h hm hs] at hp
        by_cases hz : h.takeWhile (fun c => (digitValue? 16 c).isSome) = []
        · rw [if_pos hz] at hp; cases hp
        · rw [if_neg hz] at hp
          refine ⟨neg, body, _, hsplit,
            Or.inl ⟨h, _, hb, beginsWithDigits_takeWhile 16 h hz, rfl⟩, ?_⟩
          by_cases hn : neg = true
          · rw [if_pos hn] at hp ⊢; exact (Option.some.inj hp).symm
          · rw [if_neg hn] at hp ⊢; exact (Option.some.inj hp).symm
      · rw [parseInt_of_split s neg body 10 body hm hs] at hp
        by_cases hz : body.takeWhile (fun c => (digitValue? 10 c).isSome) = []
        · rw [if_pos hz] at hp; cases hp
        · rw [if_neg hz] at hp
          refine ⟨neg, body, _, hsplit,
            Or.inr ⟨hb, _, beginsWithDigits_takeWhile 10 body hz, rfl⟩, ?_⟩
          by_cases hn : neg = true
          · rw [if_pos hn] at hp ⊢; exact (Option.some.inj hp).symm
          · rw [if_neg hn] at hp ⊢; exact (Option.some.inj hp).symm
  · rintro ⟨neg, body, n, hsplit, hnum, hY⟩
    rcases hnum with ⟨h, ds, hb, hd, hn⟩ | ⟨hb, ds, hd, hn⟩
    · have hstart := start_of_toNat (c := '0') (Or.inl (by decide))
      have hs : splitSign (s.data.dropWhile isStrWhiteSpaceChar) = (neg, body) := by
        rcases hb with hb | hb
        · rw [hb] at hsplit ⊢
          exact splitSign_of_splitsAs _ _ _ _ hsplit hstart.1 hstart.2.1 hstart.2.2
        · rw [hb] at hsplit ⊢
          exact splitSign_of_splitsAs _ _ _ _ hsplit hstart.1 hstart.2.1 hstart.2.2
      have hm : (match body with
          | '0' :: 'x' :: t => ((16 : Nat), t)
          | '0' :: 'X' :: t => (16, t)
          | _ => (10, body)) = (16, h) := by
        rcases hb with hb | hb <;> rw [hb] <;> rfl
      rw [parseInt_of_split s neg body 16 h hm hs, takeWhile_of_beginsWithDigits 16 h ds hd,
        if_neg hd.1, hY, hn]
      by_cases hneg : neg = true
      · rw [if_pos hneg, if_pos hneg]
      · rw [if_neg hneg, if_neg hneg]
    · obtain ⟨d, ds', rfl⟩ := List.exists_cons_of_ne_nil hd.1
      obtain ⟨_, hall, tail, hbody, _⟩ := hd
      have hdig := toNat_of_isDecimalDigit (c := d) (hall d (List.mem_cons_self _ _))
      have hstart := start_of_toNat (c := d) (Or.inl hdig)
      have hs : splitSign (s.data.dropWhile isStrWhiteSpaceChar) = (neg, body) := by
        rw [hbody] at hsplit ⊢
        exact splitSign_of_splitsAs _ _ _ _ hsplit hstart.1 hstart.2.1 hstart.2.2
      have hm : (match body with
          | '0' :: 'x' :: t => ((16 : Nat), t)
          | '0' :: 'X' :: t => (16, t)
          | _ => (10, body)) = (10, body) := by
        rcases radix_cases body with ⟨h, hb', _⟩ | ⟨_, hm⟩
        · rcases hb' with hb' | hb'
          · exact absurd hb' (hb h).1
          · exact absurd hb' (hb h).2
        · exact hm
      have hd' : BeginsWithDigits 10 body (d :: ds') := by
        rename_i hd0 htail
        exact ⟨hd0, hall, tail, hbody, htail⟩
      rw [parseInt_of_split s neg body 10 body hm hs,
        takeWhile_of_beginsWithDigits 10 body (d :: ds') hd', if_neg (List.cons_ne_nil _ _), hY,
        hn]
      by_cases hneg : neg = true
      · rw [if_pos hneg, if_pos hneg]
      · rw [if_neg hneg, if_neg hneg]


theorem isNaN_ite (c : Prop) [Decidable c] (a b : JSNumber) (ha : a.isNaN = false)
    (hb : b.isNaN = false) : (if c then a else b).isNaN = false := by
  split <;> assumption

theorem isNaN_roundQuot (neg : Bool) (num den : Nat) :
    (JSNumber.roundQuot neg num den).isNaN = false := by
  unfold JSNumber.roundQuot
  apply isNaN_ite
  · rfl
  · simp only []
    apply isNaN_ite <;> rfl

theorem isNaN_ofDecimal (neg : Bool) (n : Nat) (e : Int) :
    (JSNumber.ofDecimal neg n e).isNaN = false := by
  unfold JSNumber.ofDecimal
  split <;> exact isNaN_roundQuot _ _ _

theorem isNaN_number_iff (P Q : Prop) [Decidable P] [Decidable Q] (neg : Bool) (n : Nat)
    (e : Int) :
    (if P then JSNumber.inf neg else if Q then JSNumber.nan
      else JSNumber.ofDecimal neg n e).isNaN = false ↔ P ∨ ¬ Q := by
  by_cases hP : P
  · simp [hP, JSNumber.isNaN]
  · by_cases hQ : Q
    · simp [hP, hQ, JSNumber.isNaN]
    · simp [hP, hQ, isNaN_ofDecimal]

theorem no_digits_iff (body : List Char) :
    (body.takeWhile isDecimalDigit = [] ∧
      (match body.dropWhile isDecimalDigit with
        | '.' :: t => (t.takeWhile isDecimalDigit, t.dropWhile isDecimalDigit)
        | _ => ([], body.dropWhile isDecimalDigit)).1 = []) ↔
      ¬ ((∃ d rest, body = d :: rest ∧ isDecimalDigit d = true) ∨
        (∃ d rest, body = '.' :: d :: rest ∧ isDecimalDigit d = true)) := by
  cases body with
  | nil => simp
  | cons c r =>
    by_cases hc : isDecimalDigit c = true
    · simp [List.takeWhile_cons, hc]
    · have hc' : isDecimalDigit c = false := by simpa using hc
      by_cases hdot : c = '.'
      · subst hdot
        cases r with
        | nil => simp [List.takeWhile_cons, List.dropWhile_cons, hc']
        | cons d r =>
          by_cases hd : isDecimalDigit d = true
          · simp [List.takeWhile_cons, List.dropWhile_cons, hc', hd]
          · have hd' : isDecimalDigit d = false := by simpa using hd
            simp [List.takeWhile_cons, List.dropWhile_cons, hc', hd']
      · have hdrop : (c :: r).dropWhile isDecimalDigit = c :: r := by
          simp [List.dropWhile_cons, hc']
        rw [hdrop]
        have hm : (match c :: r with
            | '.' :: t => (t.takeWhile isDecimalDigit, t.dropWhile isDecimalDigit)
            | _ => ([], c :: r)).1 = [] := by
          split
          · rename_i t heq
            exact absurd (List.cons.inj heq).1 hdot
          · rfl
        simp [List.takeWhile_cons, hc', hm, hdot]

theorem parseFloat_of_split (s : String) (neg : Bool) (body : List Char)
    (hs : splitSign (s.data.dropWhile isStrWhiteSpaceChar) = (neg, body)) :
    (parseFloat s).isNaN = false ↔ BeginsNumber body := by
  unfold parseFloat
  simp only [hs]
  rw [isNaN_number_iff, no_digits_iff, not_not]
  unfold BeginsNumber
  apply or_congr_left
  rw [List.isPrefixOf_iff_prefix]
  constructor
  · rintro ⟨t, ht⟩
    exact ⟨t, ht.symm⟩
  · rintro ⟨t, ht⟩
    exact ⟨t, ht.symm⟩

/-- `parseFloat` returns a Number other than `NaN` exactly on the texts that
have a leading number. -/
theorem parseFloat_isNaN_iff (s : String) :
    (parseFloat s).isNaN = false ↔ LeadingNumber s := by
  cases hs : splitSign (s.data.dropWhile isStrWhiteSpaceChar) with
  | mk neg body =>
    rw [parseFloat_of_split s neg body hs]
    constructor
    · intro hb
      exact ⟨neg, body, splitsAs_of_splitSign s.data neg body hs, hb⟩
    · rintro ⟨neg', body', hsplit, hb⟩
      have hstart : ∃ c rest, body' = c :: rest ∧
          ((48 ≤ c.toNat ∧ c.toNat ≤ 57) ∨ c = '.' ∨ c = 'I') := by
        rcases hb with ⟨rest, h⟩ | ⟨d, rest, h, hd⟩ | ⟨d, rest, h, _⟩
        · exact ⟨'I', "nfinity".data ++ rest, h, Or.inr (Or.inr rfl)⟩
        · exact ⟨d, rest, h, Or.inl (toNat_of_isDecimalDigit hd)⟩
        · exact ⟨'.', d :: rest, h, Or.inr (Or.inl rfl)⟩
      obtain ⟨c, rest, hbody, hc⟩ := hstart
      have h3 := start_of_toNat hc
      rw [hbody] at hsplit
      have := splitSign_of_splitsAs s.data neg' c rest hsplit h3.1 h3.2.1 h3.2.2
      rw [hs] at this
      rw [(Prod.mk.inj this).2, ← hbody]
      exact hb


/-! ## The guard of line 38 in terms of the texts -/

/-- The guard lets a record through for year `Y` exactly when the record
counts for `Y` as `CountsFor` says. -/
theorem qualifiesFor_iff_countsFor (Y : Int) (row : RawRecord) :
    qualifiesFor Y row ↔ CountsFor Y row := by
  unfold qualifiesFor CountsFor
  rw [parseFloat_isNaN_iff]
  apply and_congr_left'
  cases hw : row.work_year with
  | none =>
    have : parseInt (workYearString row) = none := by
      unfold workYearString
      rw [hw]
      decide
    simp [this]
  | some s =>
    have : workYearString row = s := by
      unfold workYearString
      rw [hw]
      rfl
    rw [this, parseInt_eq_some_iff]
    simp

theorem leadingInteger_unique {s : String} {Y Z : Int} (h1 : LeadingInteger s Y)
    (h2 : LeadingInteger s Z) : Y = Z := by
  rw [← parseInt_eq_some_iff] at h1 h2
  exact Option.some.inj (h1.symm.trans h2)

theorem not_qualifiesFor_of_countsForNone (row : RawRecord) (h : CountsForNone row) (Y : Int) :
    ¬ qualifiesFor Y row := by
  rw [qualifiesFor_iff_countsFor]
  rintro ⟨⟨s, hs, hi⟩, h1, h2, hn⟩
  rcases h with h | ⟨s', hs', h⟩ | h
  · exact h s hs Y hi
  · rw [hs] at hs'
    cases hs'
    rcases h with h | h
    · have := leadingInteger_unique hi h
      omega
    · have := leadingInteger_unique hi h
      omega
  · exact h hn

/-- `CountsForNone` in terms of the two parse results. -/
theorem countsForNone_iff (row : RawRecord) :
    CountsForNone row ↔
      (parseInt (workYearString row) = none ∨ parseInt (workYearString row) = some 2019 ∨
        parseInt (workYearString row) = some 2025 ∨
        (parseFloat row.salary_in_usd).isNaN = true) := by
  unfold CountsForNone
  rw [← parseFloat_isNaN_iff]
  cases hw : row.work_year with
  | none =>
    have : parseInt (workYearString row) = none := by
      unfold workYearString
      rw [hw]
      decide
    simp [this]
  | some s =>
    have : workYearString row = s := by
      unfold workYearString
      rw [hw]
      rfl
    rw [this]
    simp only [Option.some.injEq, forall_eq', exists_eq_left', ← parseInt_eq_some_iff]
    constructor
    · rintro (h | h | h)
      · left
        cases hp : parseInt s with
        | none => rfl
        | some Y => exact absurd hp (h Y)
      · rcases h with h | h
        · exact Or.inr (Or.inl h)
        · exact Or.inr (Or.inr (Or.inl h))
      · right; right; right
        simpa using h
    · rintro (h | h | h | h)
      · left
        intro Y hY
        rw [h] at hY
        cases hY
      · exact Or.inr (Or.inl (Or.inl h))
      · exact Or.inr (Or.inl (Or.inr h))
      · right; right
        simp [h]

/-! ## Counting and removing -/

theorem countIs_filter {α : Type} (P : α → Prop) (p : α → Bool) (h : ∀ a, p a = true ↔ P a)
    (l : List α) : CountIs P l (l.filter p).length := by
  induction l with
  | nil => exact CountIs.nil
  | cons a l ih =>
    by_cases ha : p a = true
    · rw [List.filter_cons_of_pos ha]
      exact CountIs.yes ((h a).1 ha) ih
    · rw [List.filter_cons_of_neg ha]
      exact CountIs.no (fun hP => ha ((h a).2 hP)) ih

theorem countIs_unique {α : Type} (P : α → Prop) (l : List α) (n m : Nat)
    (hn : CountIs P l n) (hm : CountIs P l m) : n = m := by
  induction hn generalizing m with
  | nil => cases hm; rfl
  | yes hP _ ih =>
    cases hm with
    | yes _ hm' => rw [ih _ hm']
    | no hP' _ => exact absurd hP hP'
  | no hP _ ih =>
    cases hm with
    | yes hP' _ => exact absurd hP' hP
    | no _ hm' => exact ih _ hm'

theorem removesAll_filter {α : Type} (P : α → Prop) (p : α → Bool)
    (h : ∀ a, p a = true ↔ ¬ P a) (l : List α) : RemovesAll P l (l.filter p) := by
  induction l with
  | nil => exact RemovesAll.nil
  | cons a l ih =>
    by_cases ha : p a = true
    · rw [List.filter_cons_of_pos ha]
      exact RemovesAll.keep ((h a).1 ha) ih
    · rw [List.filter_cons_of_neg ha]
      exact RemovesAll.drop (by_contra fun hP => ha ((h a).2 hP)) ih

theorem foldl_processStep_removesAll (data kept : List RawRecord)
    (h : RemovesAll CountsForNone data kept) (acc : JSObject YearInfo) :
    kept.foldl processStep acc = data.foldl processStep acc := by
  induction h generalizing acc with
  | nil => rfl
  | drop hP _ ih =>
    rw [List.foldl_cons,
      processStep_of_not_qualifying acc _ (not_qualifiesFor_of_countsForNone _ hP), ih]
  | keep _ _ ih => rw [List.foldl_cons, List.foldl_cons, ih]

/-! ## The claims on qualifying records -/

/-- C1, as the code has it: `processSalaryData` emits a row for year `Y` if and
only if some record counts for `Y`, that is, its `work_year` has a leading
integer numeral of value `Y` (text after the numeral is ignored), with
`2020 ≤ Y ≤ 2024`, and its `salary_in_usd` has a leading number; and it
never emits two rows for one year. -/
theorem summary_emitted_iff_counts (data : List RawRecord) (Y : Int) :
    ((∃ s ∈ processSalaryData data, s.year = yearKey Y) ↔ ∃ r ∈ data, CountsFor Y r) ∧
      (processSalaryData data).countP (fun s => s.year = yearKey Y) ≤ 1 := by
  refine ⟨?_, (summary_emitted_iff_guard data Y).2⟩
  rw [(summary_emitted_iff_guard data Y).1]
  constructor
  · rintro ⟨r, hr, hq⟩
    exact ⟨r, hr, (qualifiesFor_iff_countsFor Y r).1 hq⟩
  · rintro ⟨r, hr, hq⟩
    exact ⟨r, hr, (qualifiesFor_iff_countsFor Y r).2 hq⟩

theorem summary_emitted_iff_counts_witness :
    processSalaryData mixedRows = [⟨"2021", 3, "20.00"⟩] ∧
      ((∃ s ∈ processSalaryData mixedRows, s.year = yearKey 2021) ↔
        ∃ r ∈ mixedRows, CountsFor 2021 r) ∧
      ((∃ s ∈ processSalaryData mixedRows, s.year = yearKey 2019) ↔
        ∃ r ∈ mixedRows, CountsFor 2019 r) :=
  ⟨by decide!, (summary_emitted_iff_counts mixedRows 2021).1,
    (summary_emitted_iff_counts mixedRows 2019).1⟩

/-- C1, as stated, fails: the only record has the `work_year` `2021abc`, which
is no integer, and a row for 2021 is emitted. -/
theorem summary_emitted_without_integer_year :
    processSalaryData trailingTextRows = [⟨"2021", 1, "100000.00"⟩] ∧
      (⟨"2021", 1, "100000.00"⟩ : YearSummary).year = yearKey 2021 ∧
      trailingTextRows.all (fun r => !qualifiesPlainly 2021 r) = true := by
  decide!

/-- C2, as the code has it: the `totalJobs` of the row emitted for year `Y` is
the number of records of the input that count for `Y` (a leading integer
numeral of value `Y` in `work_year`, a leading number in `salary_in_usd`). -/
theorem totalJobs_counts (data : List RawRecord) (s : YearSummary) (Y : Int)
    (hs : s ∈ processSalaryData data) (hY : s.year = yearKey Y) :
    CountIs (CountsFor Y) data s.totalJobs := by
  rw [totalJobs_eq_guard_count data s Y hs hY]
  exact countIs_filter (CountsFor Y) (fun r => decide (qualifiesFor Y r))
    (fun r => by rw [decide_eq_true_iff]; exact qualifiesFor_iff_countsFor Y r) data

theorem totalJobs_counts_witness :
    (⟨"2021", 3, "20.00"⟩ : YearSummary) ∈ processSalaryData mixedRows ∧
      (⟨"2021", 3, "20.00"⟩ : YearSummary).year = yearKey 2021 ∧
      CountIs (CountsFor 2021) mixedRows (⟨"2021", 3, "20.00"⟩ : YearSummary).totalJobs :=
  ⟨by decide!, by decide,
    totalJobs_counts mixedRows ⟨"2021", 3, "20.00"⟩ 2021 (by decide!) (by decide)⟩

/-- C2, as stated, fails: of the five records only the first has the integer
year 2021 and a salary that is a number, and the `totalJobs` of 2021 is 3. -/
theorem totalJobs_counts_trailing_text :
    processSalaryData mixedRows = [⟨"2021", 3, "20.00"⟩] ∧
      (⟨"2021", 3, "20.00"⟩ : YearSummary).year = yearKey 2021 ∧
      (mixedRows.filter (qualifiesPlainly 2021)).length = 1 := by
  decide!

/-- C4, as the code has it: the records that count for no year (`work_year`
absent or without a leading integer numeral, or with the leading numeral 2019
or 2025, or `salary_in_usd` without a leading number) contribute nothing:
`processSalaryData`, a total function, returns the same rows once all of them
are removed. -/
theorem records_counting_for_none_ignored (data kept : List RawRecord)
    (h : RemovesAll CountsForNone data kept) :
    processSalaryData kept = processSalaryData data := by
  unfold processSalaryData groupByYear
  rw [foldl_processStep_removesAll data kept h]

theorem records_counting_for_none_ignored_witness :
    RemovesAll CountsForNone mixedRows countingRows ∧
      processSalaryData countingRows = processSalaryData mixedRows :=
  have hrem : RemovesAll CountsForNone mixedRows countingRows :=
    (by decide! : mixedRows.filter (fun r => decide (¬ (parseInt (workYearString r) = none ∨
        parseInt (workYearString r) = some 2019 ∨ parseInt (workYearString r) = some 2025 ∨
        (parseFloat r.salary_in_usd).isNaN = true))) = countingRows) ▸
      removesAll_filter CountsForNone _
        (fun r => by rw [decide_eq_true_iff, countsForNone_iff]) mixedRows
  ⟨hrem, records_counting_for_none_ignored mixedRows countingRows hrem⟩

/-- C4, as stated, fails: the record has the `work_year` `2021abc`, which is
no number, so removing the records with a non-numeric year leaves nothing and
no row, yet the code emits a row for 2021 from it. -/
theorem non_numeric_year_contributes :
    trailingTextRows.filter (fun r => !isExcludedPlainly r) = [] ∧
      processSalaryData [] = [] ∧
      processSalaryData trailingTextRows = [⟨"2021", 1, "100000.00"⟩] := by
  decide!

end SalaryDashboard
